import Mathlib

set_option maxHeartbeats 1000000
set_option linter.unusedVariables false

/-!
Verification of the AST-visualizer core (src/astvisualizer.py) against its
specification.

The script walks a parsed Python AST and produces a Graphviz digraph: one
graph node per distinct AST node object (keyed on `id(node)`), one edge per
structural parent/child reference, labels synthesized per node kind, and a
taint classification (external/internal) for `yaml.load` calls.

The shallow embedding below models AST nodes as a mutual inductive family.
Each node carries an explicit `oid : Nat` standing for the CPython object
identity `id(node)`; the walker's `node_ids` dictionary is keyed on it, so
trees with shared sub-objects (DAGs) are expressible by repeating an `oid`.
Only the node kinds and fields exercised by the script and the claims are
modelled; field iteration order mirrors CPython's `ast` `_fields` tuples,
which is what `ast.iter_fields` yields.
-/

/-- Value carried by an `ast.Constant` node (only the cases the label
synthesizer distinguishes: strings versus everything else, represented by
integers). -/
inductive ConstVal where
  | str (s : String)
  | int (n : Int)
deriving DecidableEq

mutual
/-- AST nodes, mirroring the CPython `ast` objects the script consumes.
`oid` is the object identity (`id(node)` in Python). Field order inside each
constructor follows the corresponding `_fields` tuple. `ctx` fields are
genuine child AST nodes (`Load`/`Store` objects), because
`ast.iter_fields` yields them and the script recurses into them. -/
inductive Node where
  | module (oid : Nat) (body : NodeList)
  | functionDef (oid : Nat) (nm : String) (args : Node) (body : NodeList)
      (decorator_list : NodeList) (returns : NodeOpt)
  | argumentsNode (oid : Nat) (args : NodeList)
  | argNode (oid : Nat) (argName : String) (ann : NodeOpt)
  | returnStmt (oid : Nat) (value : NodeOpt)
  | exprStmt (oid : Nat) (value : Node)
  | callNode (oid : Nat) (func : Node) (args : NodeList) (keywords : NodeList)
  | attributeNode (oid : Nat) (value : Node) (attr : String) (ctx : Node)
  | nameNode (oid : Nat) (ident : String) (ctx : Node)
  | constantNode (oid : Nat) (value : ConstVal)
  | loadCtx (oid : Nat)
  | storeCtx (oid : Nat)
/-- A list of AST nodes (a `list` field value in Python). -/
inductive NodeList where
  | nil
  | cons (n : Node) (ns : NodeList)
/-- An optional AST node (a field that may be `None` in Python). -/
inductive NodeOpt where
  | none
  | some (n : Node)
end

/-- Object identity of a node: the Python `id(node)`. -/
def oidOf : Node → Nat
  | .module o _ => o
  | .functionDef o _ _ _ _ _ => o
  | .argumentsNode o _ => o
  | .argNode o _ _ => o
  | .returnStmt o _ => o
  | .exprStmt o _ => o
  | .callNode o _ _ _ => o
  | .attributeNode o _ _ _ => o
  | .nameNode o _ _ => o
  | .constantNode o _ => o
  | .loadCtx o => o
  | .storeCtx o => o

/-- The Python class name `type(node).__name__` of a node. -/
def kindName : Node → String
  | .module _ _ => "Module"
  | .functionDef _ _ _ _ _ _ => "FunctionDef"
  | .argumentsNode _ _ => "arguments"
  | .argNode _ _ _ => "arg"
  | .returnStmt _ _ => "Return"
  | .exprStmt _ _ => "Expr"
  | .callNode _ _ _ _ => "Call"
  | .attributeNode _ _ _ _ => "Attribute"
  | .nameNode _ _ _ => "Name"
  | .constantNode _ _ => "Constant"
  | .loadCtx _ => "Load"
  | .storeCtx _ => "Store"

/-- Length of a `NodeList` (Python `len`). -/
def lenNL : NodeList → Nat
  | .nil => 0
  | .cons _ ns => lenNL ns + 1

/-- First element of a `NodeList`, if any (`xs[0] if xs else None`). -/
def headNL : NodeList → Option Node
  | .nil => Option.none
  | .cons n _ => Option.some n

mutual
/-- All nodes of a (sub)tree in depth-first, field-declaration order, the
node itself first: the order in which `add_node` first discovers them. -/
def preorder (n : Node) : List Node :=
  match n with
  | .module _ body => n :: preorderNL body
  | .functionDef _ _ args body dec rets =>
      n :: (preorder args ++ (preorderNL body ++ (preorderNL dec ++ preorderNO rets)))
  | .argumentsNode _ args => n :: preorderNL args
  | .argNode _ _ ann => n :: preorderNO ann
  | .returnStmt _ v => n :: preorderNO v
  | .exprStmt _ v => n :: preorder v
  | .callNode _ f args kws =>
      n :: (preorder f ++ (preorderNL args ++ preorderNL kws))
  | .attributeNode _ v _ ctx => n :: (preorder v ++ preorder ctx)
  | .nameNode _ _ ctx => n :: preorder ctx
  | .constantNode _ _ => [n]
  | .loadCtx _ => [n]
  | .storeCtx _ => [n]
/-- Preorder traversal of a node list. -/
def preorderNL : NodeList → List Node
  | .nil => []
  | .cons n ns => preorder n ++ preorderNL ns
/-- Preorder traversal of an optional node. -/
def preorderNO : NodeOpt → List Node
  | .none => []
  | .some n => preorder n
end

/-- Object identities of all nodes of a subtree, in discovery order. -/
def oids (n : Node) : List Nat := (preorder n).map oidOf

/-- Object identities of all nodes of a node list. -/
def oidsNL (ns : NodeList) : List Nat := (preorderNL ns).map oidOf

/-- Object identities of all nodes of an optional node. -/
def oidsNO (o : NodeOpt) : List Nat := (preorderNO o).map oidOf

/-- Number of nodes of a subtree. -/
def plen (n : Node) : Nat := (preorder n).length

/-- Number of nodes of a node list. -/
def plenNL (ns : NodeList) : Nat := (preorderNL ns).length

/-- Number of nodes of an optional node. -/
def plenNO (o : NodeOpt) : Nat := (preorderNO o).length

/-- An input is a genuine tree (as produced for distinct source constructs)
when no object identity occurs twice. -/
def distinctOids (t : Node) : Prop := (oids t).Nodup

/-!  The `yaml.load` detector and classifier (lines 9-45 of the script). -/

/-- Test from `FindYamlLoad.visit_Call`: the callee is an `ast.Attribute`
with `attr == 'load'` whose `value` is an `ast.Name` with `id == 'yaml'`. -/
def isYamlLoadFunc : Node → Bool
  | .attributeNode _ (.nameNode _ "yaml" _) "load" _ => true
  | _ => false

mutual
/-- Embedding of the `FindYamlLoad` visitor: collects every `yaml.load` call
node paired with the name of the innermost enclosing `FunctionDef` (or
`none` at module level).  `visit_FunctionDef` sets `current_func` around
`generic_visit`; `visit_Call` appends the matching call before visiting its
children; every other kind just recurses with `cur` unchanged. -/
def findYaml (n : Node) (cur : Option String) : List (Node × Option String) :=
  match n with
  | .module _ body => findYamlNL body cur
  | .functionDef _ nm args body dec rets =>
      findYaml args (Option.some nm) ++ (findYamlNL body (Option.some nm) ++
        (findYamlNL dec (Option.some nm) ++ findYamlNO rets (Option.some nm)))
  | .argumentsNode _ args => findYamlNL args cur
  | .argNode _ _ ann => findYamlNO ann cur
  | .returnStmt _ v => findYamlNO v cur
  | .exprStmt _ v => findYaml v cur
  | .callNode _ f args kws =>
      (if isYamlLoadFunc f then [(n, cur)] else []) ++
        (findYaml f cur ++ (findYamlNL args cur ++ findYamlNL kws cur))
  | .attributeNode _ v _ ctx => findYaml v cur ++ findYaml ctx cur
  | .nameNode _ _ ctx => findYaml ctx cur
  | .constantNode _ _ => []
  | .loadCtx _ => []
  | .storeCtx _ => []
/-- Visitor recursion over a node list. -/
def findYamlNL (ns : NodeList) (cur : Option String) : List (Node × Option String) :=
  match ns with
  | .nil => []
  | .cons n rest => findYaml n cur ++ findYamlNL rest cur
/-- Visitor recursion over an optional node. -/
def findYamlNO (o : NodeOpt) (cur : Option String) : List (Node × Option String) :=
  match o with
  | .none => []
  | .some n => findYaml n cur
end

/-- Embedding of `is_external_input` for a non-`None` node: Python's
`any(isinstance(n, ast.Name) and n.id == 'request' for n in ast.walk(node))`.
`ast.walk` yields the node and all of its descendants; the embedding scans
the same set via `preorder`. -/
def containsRequest (n : Node) : Bool :=
  (preorder n).any fun m =>
    match m with
    | .nameNode _ i _ => i == "request"
    | _ => false

/-- Embedding of `is_external_input(node)` including the `node is None`
guard (an absent first argument is treated as not external). -/
def is_external_input : Option Node → Bool
  | Option.none => false
  | Option.some n => containsRequest n

/-- The first positional argument of a call:
`call_node.args[0] if call_node.args else None`. -/
def firstArg : Node → Option Node
  | .callNode _ _ args _ => headNL args
  | _ => Option.none

/-- The classification condition of the loop at lines 39-45: the call is
marked external iff the enclosing function is `_external_load` or the first
argument subtree references `request`. -/
def externalCond (p : Node × Option String) : Bool :=
  p.2 == Option.some "_external_load" || is_external_input (firstArg p.1)

/-- The `external_calls` set: object ids of the yaml.load calls satisfying
the external condition (membership-equivalent to the Python set). -/
def external_calls (pairs : List (Node × Option String)) : List Nat :=
  (pairs.filter externalCond).map fun p => oidOf p.1

/-- The `internal_calls` set: object ids of the remaining yaml.load calls. -/
def internal_calls (pairs : List (Node × Option String)) : List Nat :=
  (pairs.filter fun p => !externalCond p).map fun p => oidOf p.1

/-!  Label synthesis (lines 66-164). -/

/-- Character-level newline escaping: Python `val.replace("\n", "\\n")`,
replacing each newline by the two characters backslash and `n`. -/
def escChars : List Char → List Char
  | [] => []
  | c :: cs => (if c = '\n' then ['\\', 'n'] else [c]) ++ escChars cs

/-- String form of the newline escaping. -/
def escNL (v : String) : String := String.mk (escChars v.data)

/-- Python character slicing `s[:k]`. -/
def strTake (s : String) (k : Nat) : String := String.mk (s.data.take k)

/-- Number of positional call arguments of the `arguments` child:
`len(node.args.args)`.  The parser guarantees the `args` field holds an
`ast.arguments` node; any other shape would raise in Python and cannot be
produced by `ast.parse`, so it is mapped to 0. -/
def argsArgsLen : Node → Nat
  | .argumentsNode _ args => lenNL args
  | _ => 0

/-- Callee resolution inside the `ast.Call` labelling branch (lines 92-104):
a `Name` gives its id, an `Attribute` chain of up to three links gives a
dotted name, a deeper or unusual `Attribute` falls back to the outer
attribute name alone, and any other callee shape falls back to the node
type name of the call itself, which is `"Call"`. -/
def calleeName : Node → String
  | .nameNode _ i _ => i
  | .attributeNode _ v a _ =>
      match v with
      | .nameNode _ vi _ => vi ++ "." ++ a
      | .attributeNode _ vv va _ =>
          match vv with
          | .nameNode _ vvi _ => vvi ++ "." ++ va ++ "." ++ a
          | _ => a
      | _ => a
  | _ => "Call"

/-- Label synthesis (`label` in `add_node`), including the
external/internal suffix appended for classified `yaml.load` calls. -/
def labelOf (ext int : List Nat) (n : Node) : String :=
  match n with
  | .functionDef _ nm args _ _ _ =>
      "FunctionDef: name=" ++ nm ++ ", args=" ++ Nat.repr (argsArgsLen args)
  | .returnStmt _ _ => "Return"
  | .callNode o f args _ =>
      let base := "Call: " ++ calleeName f ++ " (args=" ++ Nat.repr (lenNL args) ++ ")"
      if o ∈ ext then base ++ " [external]"
      else if o ∈ int then base ++ " [internal]"
      else base
  | .attributeNode _ _ a _ => "Attribute: ." ++ a
  | .nameNode _ i ctx => "Name: " ++ i ++ " (" ++ kindName ctx ++ ")"
  | .constantNode _ (.str v) =>
      let s := escNL v
      let s2 := if s.length > 20 then strTake s 17 ++ "..." else s
      "Constant: \"" ++ s2 ++ "\""
  | .constantNode _ (.int v) => "Constant: " ++ toString v
  | .argNode _ a _ => "arg: " ++ a
  | n => kindName n

/-- Fill color attached by `dot.node` for classified `yaml.load` calls. -/
def fillOf (ext int : List Nat) (n : Node) : Option String :=
  match n with
  | .callNode o _ _ _ =>
      if o ∈ ext then Option.some "lightcoral"
      else if o ∈ int then Option.some "lightblue"
      else Option.none
  | _ => Option.none

/-!  The graph model and the walker `add_node` (lines 47-187). -/

/-- A node record of the accumulated digraph (one `dot.node` call). -/
structure GNode where
  id : String
  label : String
  fill : Option String
deriving DecidableEq

/-- An edge record of the accumulated digraph (one `dot.edge` call). -/
structure GEdge where
  src : String
  dst : String
  lab : String
deriving DecidableEq

/-- The walker's mutable state: the `node_counter`, the `node_ids`
dictionary (insertion-ordered association list keyed on object identity),
and the digraph's node and edge records in emission order. -/
structure St where
  node_counter : Nat
  node_ids : List (Nat × String)
  nodes : List GNode
  edges : List GEdge
deriving DecidableEq

/-- Dictionary lookup `node_ids.get(id(node))`. -/
def lookupId : List (Nat × String) → Nat → Option String
  | [], _ => Option.none
  | (k, v) :: rest, o => if k = o then Option.some v else lookupId rest o

/-- The graph node name `f"node{node_counter}"`. -/
def mkId (k : Nat) : String := "node" ++ Nat.repr k

/-- The edge label: `str(field_name)` or `""` when no field name given. -/
def flabStr : Option String → String
  | Option.none => ""
  | Option.some f => f

/-- The edges emitted by the `if parent_id:` step: one edge when a parent
id was supplied, none at the root. -/
def edgesFor (parent_id : Option String) (nid : String) (lab : String) : List GEdge :=
  match parent_id with
  | Option.none => []
  | Option.some pid => [GEdge.mk pid nid lab]

mutual
/-- Embedding of `add_node(node, parent_id, field_name)` (lines 57-184).
First the node's graph id is looked up in `node_ids`; on a miss a fresh id
is assigned, the counter bumped and the labelled graph node registered.
The script has two `dot.node` call sites — the colored one inside the
`ast.Call` branch for classified calls and the guarded plain one at line
163 — which together register exactly one node with the label and the
optional fillcolor; the embedding performs that single registration
directly via `labelOf` and `fillOf`.  Then the parent edge is emitted
(`if parent_id:`), and finally the walker recurses into the structural
fields in `ast.iter_fields` order — unconditionally, whether or not the
node had been seen before. -/
def add_node (ext int : List Nat) (node : Node) (parent_id : Option String)
    (field_name : Option String) (st : St) : St :=
  let pr :=
    match lookupId st.node_ids (oidOf node) with
    | Option.some nid => (nid, st)
    | Option.none =>
        let nid := mkId st.node_counter
        (nid, St.mk (st.node_counter + 1)
          (st.node_ids ++ [(oidOf node, nid)])
          (st.nodes ++ [GNode.mk nid (labelOf ext int node) (fillOf ext int node)])
          st.edges)
  let nid := pr.1
  let st1 := pr.2
  let st2 := St.mk st1.node_counter st1.node_ids st1.nodes
    (st1.edges ++ edgesFor parent_id nid (flabStr field_name))
  match node with
  | .module _ body => add_list ext int body nid "body" 0 st2
  | .functionDef _ _ args body dec rets =>
      add_opt ext int rets nid "returns"
        (add_list ext int dec nid "decorator_list" 0
          (add_list ext int body nid "body" 0
            (add_node ext int args (Option.some nid) (Option.some "args") st2)))
  | .argumentsNode _ args => add_list ext int args nid "args" 0 st2
  | .argNode _ _ ann => add_opt ext int ann nid "annotation" st2
  | .returnStmt _ v => add_opt ext int v nid "value" st2
  | .exprStmt _ v => add_node ext int v (Option.some nid) (Option.some "value") st2
  | .callNode _ f args kws =>
      add_list ext int kws nid "keywords" 0
        (add_list ext int args nid "args" 0
          (add_node ext int f (Option.some nid) (Option.some "func") st2))
  | .attributeNode _ v _ ctx =>
      add_node ext int ctx (Option.some nid) (Option.some "ctx")
        (add_node ext int v (Option.some nid) (Option.some "value") st2)
  | .nameNode _ _ ctx => add_node ext int ctx (Option.some nid) (Option.some "ctx") st2
  | .constantNode _ _ => st2
  | .loadCtx _ => st2
  | .storeCtx _ => st2
/-- Traversal of a list-valued field: each element gets the edge label
`f"{field}[{idx}]"`. -/
def add_list (ext int : List Nat) (ns : NodeList) (nid : String) (fld : String)
    (idx : Nat) (st : St) : St :=
  match ns with
  | .nil => st
  | .cons c rest =>
      add_list ext int rest nid fld (idx + 1)
        (add_node ext int c (Option.some nid)
          (Option.some (fld ++ "[" ++ Nat.repr idx ++ "]")) st)
/-- Traversal of an optional field: present nodes are visited with the bare
field name as label, `None` fields are skipped by `iter_fields`. -/
def add_opt (ext int : List Nat) (o : NodeOpt) (nid : String) (fld : String)
    (st : St) : St :=
  match o with
  | .none => st
  | .some c => add_node ext int c (Option.some nid) (Option.some fld) st
end

/-- The external set computed by the script for a given tree. -/
def extOf (t : Node) : List Nat := external_calls (findYaml t Option.none)

/-- The internal set computed by the script for a given tree. -/
def intOf (t : Node) : List Nat := internal_calls (findYaml t Option.none)

/-- The whole pipeline: find and classify the `yaml.load` calls, then build
the graph by `add_node(tree)` starting from an empty state. -/
def runGraph (t : Node) : St :=
  add_node (extOf t) (intOf t) t Option.none Option.none (St.mk 0 [] [] [])

/-!
Pure specification functions.  They describe, without threading the walker
state, exactly what a walk over a fresh subtree appends to the state: the
`node_ids` entries, the graph nodes, and the edges, given the value of
`node_counter` on entry.  The refinement theorems below prove that
`add_node` realizes them.
-/

/-- The `node_ids` entries registered for the nodes `ms` (in discovery
order) when the counter starts at `c`. -/
def idsOf : List Node → Nat → List (Nat × String)
  | [], _ => []
  | m :: rest, c => (oidOf m, mkId c) :: idsOf rest (c + 1)

/-- The graph nodes registered for the nodes `ms` (in discovery order)
when the counter starts at `c`. -/
def gnodesOf (ext int : List Nat) : List Node → Nat → List GNode
  | [], _ => []
  | m :: rest, c =>
      GNode.mk (mkId c) (labelOf ext int m) (fillOf ext int m) :: gnodesOf ext int rest (c + 1)

/-- The graph ids `mkId c, mkId (c+1), ...` of `len` consecutively
registered nodes. -/
def idSeq (c : Nat) : Nat → List String
  | 0 => []
  | len + 1 => mkId c :: idSeq (c + 1) len

mutual
/-- The edges emitted while walking a fresh subtree `n` whose first node
receives id `mkId c`: the incoming edge (if a parent is present) followed
by the edges of each structural field in field-declaration order. -/
def specEdges (n : Node) (pid : Option String) (flab : String) (c : Nat) : List GEdge :=
  edgesFor pid (mkId c) flab ++
    (match n with
    | .module _ body => specEdgesNL body (mkId c) "body" 0 (c + 1)
    | .functionDef _ _ args body dec rets =>
        specEdges args (Option.some (mkId c)) "args" (c + 1) ++
          (specEdgesNL body (mkId c) "body" 0 (c + 1 + plen args) ++
            (specEdgesNL dec (mkId c) "decorator_list" 0 (c + 1 + plen args + plenNL body) ++
              specEdgesNO rets (mkId c) "returns"
                (c + 1 + plen args + plenNL body + plenNL dec)))
    | .argumentsNode _ args => specEdgesNL args (mkId c) "args" 0 (c + 1)
    | .argNode _ _ ann => specEdgesNO ann (mkId c) "annotation" (c + 1)
    | .returnStmt _ v => specEdgesNO v (mkId c) "value" (c + 1)
    | .exprStmt _ v => specEdges v (Option.some (mkId c)) "value" (c + 1)
    | .callNode _ f args kws =>
        specEdges f (Option.some (mkId c)) "func" (c + 1) ++
          (specEdgesNL args (mkId c) "args" 0 (c + 1 + plen f) ++
            specEdgesNL kws (mkId c) "keywords" 0 (c + 1 + plen f + plenNL args))
    | .attributeNode _ v _ ctx =>
        specEdges v (Option.some (mkId c)) "value" (c + 1) ++
          specEdges ctx (Option.some (mkId c)) "ctx" (c + 1 + plen v)
    | .nameNode _ _ ctx => specEdges ctx (Option.some (mkId c)) "ctx" (c + 1)
    | .constantNode _ _ => []
    | .loadCtx _ => []
    | .storeCtx _ => [])
/-- Edges of a fresh list-valued field. -/
def specEdgesNL (ns : NodeList) (p : String) (fld : String) (i : Nat) (c : Nat) : List GEdge :=
  match ns with
  | .nil => []
  | .cons n rest =>
      specEdges n (Option.some p) (fld ++ "[" ++ Nat.repr i ++ "]") c ++
        specEdgesNL rest p fld (i + 1) (c + plen n)
/-- Edges of a fresh optional field. -/
def specEdgesNO (o : NodeOpt) (p : String) (fld : String) (c : Nat) : List GEdge :=
  match o with
  | .none => []
  | .some n => specEdges n (Option.some p) fld c
end

/-- The id an already-registered node resolves to in the `node_ids`
dictionary (total version of the lookup, for subtrees known to have been
fully visited). -/
def lookD (m : List (Nat × String)) (o : Nat) : String :=
  match lookupId m o with
  | Option.some v => v
  | Option.none => ""

mutual
/-- The edges emitted when `add_node` re-traverses a subtree all of whose
nodes are already registered in the dictionary `m`: no node is created, but
the incoming edge and one edge per structural child reference are emitted
again, with ids resolved through `m`. -/
def specRevisit (m : List (Nat × String)) (n : Node) (pid : Option String)
    (flab : String) : List GEdge :=
  edgesFor pid (lookD m (oidOf n)) flab ++
    (match n with
    | .module _ body => specRevisitNL m body (lookD m (oidOf n)) "body" 0
    | .functionDef _ _ args body dec rets =>
        specRevisit m args (Option.some (lookD m (oidOf n))) "args" ++
          (specRevisitNL m body (lookD m (oidOf n)) "body" 0 ++
            (specRevisitNL m dec (lookD m (oidOf n)) "decorator_list" 0 ++
              specRevisitNO m rets (lookD m (oidOf n)) "returns"))
    | .argumentsNode _ args => specRevisitNL m args (lookD m (oidOf n)) "args" 0
    | .argNode _ _ ann => specRevisitNO m ann (lookD m (oidOf n)) "annotation"
    | .returnStmt _ v => specRevisitNO m v (lookD m (oidOf n)) "value"
    | .exprStmt _ v => specRevisit m v (Option.some (lookD m (oidOf n))) "value"
    | .callNode _ f args kws =>
        specRevisit m f (Option.some (lookD m (oidOf n))) "func" ++
          (specRevisitNL m args (lookD m (oidOf n)) "args" 0 ++
            specRevisitNL m kws (lookD m (oidOf n)) "keywords" 0)
    | .attributeNode _ v _ ctx =>
        specRevisit m v (Option.some (lookD m (oidOf n))) "value" ++
          specRevisit m ctx (Option.some (lookD m (oidOf n))) "ctx"
    | .nameNode _ _ ctx => specRevisit m ctx (Option.some (lookD m (oidOf n))) "ctx"
    | .constantNode _ _ => []
    | .loadCtx _ => []
    | .storeCtx _ => [])
/-- Revisit edges of a list-valued field. -/
def specRevisitNL (m : List (Nat × String)) (ns : NodeList) (p : String)
    (fld : String) (i : Nat) : List GEdge :=
  match ns with
  | .nil => []
  | .cons n rest =>
      specRevisit m n (Option.some p) (fld ++ "[" ++ Nat.repr i ++ "]") ++
        specRevisitNL m rest p fld (i + 1)
/-- Revisit edges of an optional field. -/
def specRevisitNO (m : List (Nat × String)) (o : NodeOpt) (p : String)
    (fld : String) : List GEdge :=
  match o with
  | .none => []
  | .some n => specRevisit m n (Option.some p) fld
end

/-!
Auxiliary definitions for reasoning about the decimal representation used
by `mkId` (injectivity of the `f"node{counter}"` naming scheme).
-/

/-- Decimal digit list of a natural number, most significant digit first:
the unfolded form of `Nat.toDigitsCore` at base 10. -/
def digits10 (n : Nat) : List Char :=
  if n < 10 then [Nat.digitChar n]
  else digits10 (n / 10) ++ [Nat.digitChar (n % 10)]
decreasing_by exact Nat.div_lt_self (by omega) (by omega)

/-- Numeric value of a digit character. -/
def charVal (ch : Char) : Nat := ch.toNat - 48

/-- Value of a most-significant-first digit string. -/
def digitsVal (l : List Char) : Nat := l.foldl (fun a ch => a * 10 + charVal ch) 0

/-- Concrete two-node witness tree for the edge-count invariant:
a module whose body is a single bare `return`. -/
def tW5 : Node := Node.module 0 (NodeList.cons (Node.returnStmt 1 NodeOpt.none) NodeList.nil)

/-- The graph node registered for the `return` statement of `tW5`. -/
def gnW5 : GNode := GNode.mk "node1" "Return" Option.none

/-- The call `yaml.load(request)`, used as concrete classifier input. -/
def cW2 : Node :=
  Node.callNode 4 (Node.attributeNode 5 (Node.nameNode 6 "yaml" (Node.loadCtx 7))
    "load" (Node.loadCtx 8))
    (NodeList.cons (Node.nameNode 9 "request" (Node.loadCtx 10)) NodeList.nil)
    NodeList.nil

/-- A module defining a function `handler` whose body performs
`yaml.load(request)`. -/
def tW2 : Node :=
  Node.module 0 (NodeList.cons
    (Node.functionDef 1 "handler" (Node.argumentsNode 2 NodeList.nil)
      (NodeList.cons (Node.exprStmt 3 cW2) NodeList.nil) NodeList.nil NodeOpt.none)
    NodeList.nil)

/-- A call node whose callee does not match the `yaml.load` pattern. -/
def isNonYamlCall : Node → Bool
  | .callNode _ f _ _ => !isYamlLoadFunc f
  | _ => false

/-- Concrete witness tree for C8: a module-level call `f()` that does not
match the `yaml.load` pattern. -/
def tW8 : Node :=
  Node.module 0 (NodeList.cons (Node.exprStmt 1
    (Node.callNode 2 (Node.nameNode 3 "f" (Node.loadCtx 4)) NodeList.nil NodeList.nil))
    NodeList.nil)

/-- The shape "a `FunctionDef` named `nm` with `k` positional parameters":
the data the FunctionDef label is synthesized from. -/
def isFDshape (nm : String) (k : Nat) (n : Node) : Prop :=
  ∃ o args body dec rets, n = Node.functionDef o nm args body dec rets ∧
    argsArgsLen args = k

/-- One of two structurally identical function definitions
`def f(x): return` (distinct object identities, same name and parameter
count), offset by the base object id `o`. -/
def fdW9 (o : Nat) : Node :=
  Node.functionDef o "f"
    (Node.argumentsNode (o + 1) (NodeList.cons (Node.argNode (o + 2) "x" NodeOpt.none)
      NodeList.nil))
    (NodeList.cons (Node.returnStmt (o + 3) NodeOpt.none) NodeList.nil)
    NodeList.nil NodeOpt.none

/-- A module containing the two structurally identical definitions. -/
def tW9 : Node := Node.module 0 (NodeList.cons (fdW9 1) (NodeList.cons (fdW9 5) NodeList.nil))

/-- An `Attribute` callee whose `value` shape is not recognized by the
bounded dotted-name walk (neither a `Name` nor an `Attribute` over a
`Name`). -/
def attrValueUnrecognized : Node → Bool
  | .nameNode _ _ _ => false
  | .attributeNode _ vv _ _ =>
      match vv with
      | .nameNode _ _ _ => false
      | _ => true
  | _ => true

/-- A callee that is neither a `Name` nor an `Attribute`. -/
def notNameOrAttribute : Node → Bool
  | .nameNode _ _ _ => false
  | .attributeNode _ _ _ _ => false
  | _ => true

/-- The callee `a.b.c.d`: an attribute chain one link deeper than the
bounded resolution recognizes. -/
def funcW6 : Node :=
  Node.attributeNode 3
    (Node.attributeNode 4
      (Node.attributeNode 5 (Node.nameNode 6 "a" (Node.loadCtx 7)) "b" (Node.loadCtx 8))
      "c" (Node.loadCtx 9))
    "d" (Node.loadCtx 10)

/-- A module whose single statement calls `a.b.c.d()`. -/
def tW6 : Node :=
  Node.module 0 (NodeList.cons
    (Node.exprStmt 1 (Node.callNode 2 funcW6 NodeList.nil NodeList.nil)) NodeList.nil)

/-- A family of arbitrarily deeply nested callee chains `a.b.b. ... .b`
(each `Attribute` node also owns a `Load` context child), with all object
identities distinct by construction. -/
def deepTree : Nat → Node
  | 0 => Node.nameNode 0 "a" (Node.loadCtx 1)
  | k + 1 => Node.attributeNode (2 * k + 2) (deepTree k) "b" (Node.loadCtx (2 * k + 3))

/-- A module defining `def f() -> int: return`: a `FunctionDef` with a
scalar `returns` annotation, whose `_fields` order is
`(name, args, body, decorator_list, returns, type_comment)` — the scalar
`returns` field is declared AFTER the list fields `body` and
`decorator_list`. -/
def tW7 : Node :=
  Node.module 0 (NodeList.cons
    (Node.functionDef 1 "f" (Node.argumentsNode 2 NodeList.nil)
      (NodeList.cons (Node.returnStmt 3 NodeOpt.none) NodeList.nil)
      NodeList.nil
      (NodeOpt.some (Node.nameNode 4 "int" (Node.loadCtx 5))))
    NodeList.nil)

/-- A call subtree `f("a")` used twice as the SAME object: the shared node
of a DAG-shaped input (same object identities at both occurrences). -/
def XW1 : Node :=
  Node.callNode 2 (Node.nameNode 3 "f" (Node.loadCtx 4))
    (NodeList.cons (Node.constantNode 5 (ConstVal.str "a")) NodeList.nil) NodeList.nil

/-- A module whose two expression statements reference the same call
object `XW1`: a DAG, as produced when a tree node is reachable through two
structural references. -/
def tW1 : Node :=
  Node.module 0 (NodeList.cons (Node.exprStmt 1 XW1)
    (NodeList.cons (Node.exprStmt 6 XW1) NodeList.nil))

/-!
Theorems.
-/

theorem charVal_digitChar : ∀ k, k < 10 → charVal (Nat.digitChar k) = k := by decide

theorem digits10_of_lt (n : Nat) (h : n < 10) : digits10 n = [Nat.digitChar n] := by
  rw [digits10, if_pos h]

theorem digits10_of_ge (n : Nat) (h : 10 ≤ n) :
    digits10 n = digits10 (n / 10) ++ [Nat.digitChar (n % 10)] := by
  rw [digits10]
  rw [if_neg (by omega)]

theorem toDigitsCore_eq_digits10 (fuel : Nat) :
    ∀ n ds, n < fuel → Nat.toDigitsCore 10 fuel n ds = digits10 n ++ ds := by
  induction fuel with
  | zero => intro n ds h; omega
  | succ f ih =>
    intro n ds h
    rw [Nat.toDigitsCore]
    by_cases h10 : n / 10 = 0
    · have hlt : n < 10 := by omega
      rw [if_pos h10, digits10_of_lt n hlt, Nat.mod_eq_of_lt hlt]
      simp
    · have hge : 10 ≤ n := by
        by_contra hc
        exact h10 (Nat.div_eq_of_lt (by omega))
      have h1 : n / 10 < n := Nat.div_lt_self (by omega) (by omega)
      have hdiv : n / 10 < f := by omega
      rw [if_neg h10, ih (n / 10) _ hdiv, digits10_of_ge n hge]
      simp

theorem digitsVal_snoc (xs : List Char) (ch : Char) :
    digitsVal (xs ++ [ch]) = digitsVal xs * 10 + charVal ch := by
  simp [digitsVal, List.foldl_append]

theorem digitsVal_digits10 (n : Nat) : digitsVal (digits10 n) = n := by
  induction n using Nat.strong_induction_on with
  | _ n ih =>
    by_cases hlt : n < 10
    · rw [digits10_of_lt n hlt]
      simp [digitsVal, charVal_digitChar n hlt]
    · rw [digits10_of_ge n (by omega)]
      rw [digitsVal_snoc, ih (n / 10) (Nat.div_lt_self (by omega) (by omega))]
      rw [charVal_digitChar (n % 10) (Nat.mod_lt n (by omega))]
      omega

theorem digits10_inj {a b : Nat} (h : digits10 a = digits10 b) : a = b := by
  have := congrArg digitsVal h
  rwa [digitsVal_digits10, digitsVal_digits10] at this

theorem natRepr_eq_digits10 (n : Nat) : Nat.repr n = String.mk (digits10 n) := by
  show (Nat.toDigits 10 n).asString = _
  rw [Nat.toDigits, toDigitsCore_eq_digits10 (n + 1) n [] (by omega)]
  simp [List.asString]

theorem natRepr_inj {a b : Nat} (h : Nat.repr a = Nat.repr b) : a = b := by
  apply digits10_inj
  rw [natRepr_eq_digits10, natRepr_eq_digits10] at h
  have := congrArg String.data h
  exact this

theorem strData_append (a b : String) : (a ++ b).data = a.data ++ b.data := by
  cases a; cases b; rfl

theorem mkId_inj : Function.Injective mkId := by
  intro a b h
  apply natRepr_inj
  have hd := congrArg String.data h
  rw [mkId, mkId, strData_append, strData_append] at hd
  exact String.ext (List.append_cancel_left hd)

/-!  Structure lemmas for the traversal-order functions. -/

@[simp]
theorem oids_module (o : Nat) (b : NodeList) : oids (.module o b) = o :: oidsNL b := by
  simp [oids, oidsNL, preorder, oidOf]

@[simp]
theorem oids_functionDef (o : Nat) (nm : String) (args : Node) (body dec : NodeList)
    (rets : NodeOpt) : oids (.functionDef o nm args body dec rets) =
      o :: (oids args ++ (oidsNL body ++ (oidsNL dec ++ oidsNO rets))) := by
  simp [oids, oidsNL, oidsNO, preorder, oidOf]

@[simp]
theorem oids_argumentsNode (o : Nat) (args : NodeList) :
    oids (.argumentsNode o args) = o :: oidsNL args := by
  simp [oids, oidsNL, preorder, oidOf]

@[simp]
theorem oids_argNode (o : Nat) (a : String) (ann : NodeOpt) :
    oids (.argNode o a ann) = o :: oidsNO ann := by
  simp [oids, oidsNO, preorder, oidOf]

@[simp]
theorem oids_returnStmt (o : Nat) (v : NodeOpt) :
    oids (.returnStmt o v) = o :: oidsNO v := by
  simp [oids, oidsNO, preorder, oidOf]

@[simp]
theorem oids_exprStmt (o : Nat) (v : Node) :
    oids (.exprStmt o v) = o :: oids v := by
  simp [oids, preorder, oidOf]

@[simp]
theorem oids_callNode (o : Nat) (f : Node) (args kws : NodeList) :
    oids (.callNode o f args kws) = o :: (oids f ++ (oidsNL args ++ oidsNL kws)) := by
  simp [oids, oidsNL, preorder, oidOf]

@[simp]
theorem oids_attributeNode (o : Nat) (v : Node) (a : String) (ctx : Node) :
    oids (.attributeNode o v a ctx) = o :: (oids v ++ oids ctx) := by
  simp [oids, preorder, oidOf]

@[simp]
theorem oids_nameNode (o : Nat) (i : String) (ctx : Node) :
    oids (.nameNode o i ctx) = o :: oids ctx := by
  simp [oids, preorder, oidOf]

@[simp]
theorem oids_constantNode (o : Nat) (v : ConstVal) : oids (.constantNode o v) = [o] := by
  simp [oids, preorder, oidOf]

@[simp]
theorem oids_loadCtx (o : Nat) : oids (.loadCtx o) = [o] := by
  simp [oids, preorder, oidOf]

@[simp]
theorem oids_storeCtx (o : Nat) : oids (.storeCtx o) = [o] := by
  simp [oids, preorder, oidOf]

@[simp]
theorem oidsNL_nil : oidsNL .nil = [] := by simp [oidsNL, preorderNL]

@[simp]
theorem oidsNL_cons (n : Node) (ns : NodeList) :
    oidsNL (.cons n ns) = oids n ++ oidsNL ns := by
  simp [oidsNL, oids, preorderNL]

@[simp]
theorem oidsNO_none : oidsNO .none = [] := by simp [oidsNO, preorderNO]

@[simp]
theorem oidsNO_some (n : Node) : oidsNO (.some n) = oids n := by
  simp [oidsNO, oids, preorderNO]

@[simp]
theorem plen_eq (n : Node) : plen n = (preorder n).length := rfl

@[simp]
theorem plenNL_eq (ns : NodeList) : plenNL ns = (preorderNL ns).length := rfl

@[simp]
theorem plenNO_eq (o : NodeOpt) : plenNO o = (preorderNO o).length := rfl

@[simp]
theorem length_oids (n : Node) : (oids n).length = (preorder n).length := by
  simp [oids]

@[simp]
theorem length_oidsNL (ns : NodeList) : (oidsNL ns).length = (preorderNL ns).length := by
  simp [oidsNL]

@[simp]
theorem length_oidsNO (o : NodeOpt) : (oidsNO o).length = (preorderNO o).length := by
  simp [oidsNO]

@[simp]
theorem flabStr_some (s : String) : flabStr (Option.some s) = s := rfl

@[simp]
theorem flabStr_none : flabStr Option.none = "" := rfl

/-!  Lemmas about `idsOf`, `gnodesOf`, `idSeq` and `lookupId`. -/

theorem idsOf_append (ms ms' : List Node) (c : Nat) :
    idsOf (ms ++ ms') c = idsOf ms c ++ idsOf ms' (c + ms.length) := by
  induction ms generalizing c with
  | nil => simp [idsOf]
  | cons m rest ih =>
      simp only [List.cons_append, idsOf, List.length_cons, List.append_eq, ih (c + 1),
        List.cons.injEq, true_and]
      have harith : c + 1 + rest.length = c + (rest.length + 1) := by omega
      rw [harith]

theorem gnodesOf_append (ext int : List Nat) (ms ms' : List Node) (c : Nat) :
    gnodesOf ext int (ms ++ ms') c =
      gnodesOf ext int ms c ++ gnodesOf ext int ms' (c + ms.length) := by
  induction ms generalizing c with
  | nil => simp [gnodesOf]
  | cons m rest ih =>
      simp only [List.cons_append, gnodesOf, List.length_cons, List.append_eq, ih (c + 1),
        List.cons.injEq, true_and]
      have harith : c + 1 + rest.length = c + (rest.length + 1) := by omega
      rw [harith]

theorem lookupId_append (m1 m2 : List (Nat × String)) (o : Nat) :
    lookupId (m1 ++ m2) o =
      match lookupId m1 o with
      | Option.some v => Option.some v
      | Option.none => lookupId m2 o := by
  induction m1 with
  | nil => simp [lookupId]
  | cons kv rest ih =>
      obtain ⟨k, v⟩ := kv
      by_cases hk : k = o
      · simp [lookupId, hk]
      · simp [lookupId, hk, ih]

theorem lookupId_idsOf_none (ms : List Node) (c : Nat) (o : Nat)
    (h : o ∉ ms.map oidOf) : lookupId (idsOf ms c) o = Option.none := by
  induction ms generalizing c with
  | nil => simp [idsOf, lookupId]
  | cons m rest ih =>
      simp only [List.map_cons, List.mem_cons, not_or] at h
      rw [idsOf, lookupId, if_neg (fun hh => h.1 hh.symm)]
      exact ih (c + 1) h.2

theorem lookupId_reg_ne (ids : List (Nat × String)) (o x : Nat) (nid : String)
    (h1 : lookupId ids x = Option.none) (h2 : x ≠ o) :
    lookupId (ids ++ [(o, nid)]) x = Option.none := by
  rw [lookupId_append, h1]
  rw [lookupId, if_neg (fun hh => h2 hh.symm)]
  rfl

theorem lookupId_ext_none (ids : List (Nat × String)) (ms : List Node) (c : Nat) (x : Nat)
    (h1 : lookupId ids x = Option.none) (h2 : x ∉ ms.map oidOf) :
    lookupId (ids ++ idsOf ms c) x = Option.none := by
  rw [lookupId_append, h1, lookupId_idsOf_none ms c x h2]

theorem idSeq_append (c a b : Nat) : idSeq c (a + b) = idSeq c a ++ idSeq (c + a) b := by
  induction a generalizing c with
  | zero => simp [idSeq]
  | succ a ih =>
      rw [show a + 1 + b = (a + b) + 1 from by omega]
      rw [idSeq, idSeq, ih (c + 1)]
      simp
      rw [show c + 1 + a = c + (a + 1) from by omega]

theorem length_idSeq (c n : Nat) : (idSeq c n).length = n := by
  induction n generalizing c with
  | zero => simp [idSeq]
  | succ n ih => simp [idSeq, ih (c + 1)]

theorem gnodesOf_map_id (ext int : List Nat) (ms : List Node) (c : Nat) :
    (gnodesOf ext int ms c).map GNode.id = idSeq c ms.length := by
  induction ms generalizing c with
  | nil => simp [gnodesOf, idSeq]
  | cons m rest ih => simp [gnodesOf, idSeq, ih (c + 1)]

theorem getElem?_gnodesOf (ext int : List Nat) (ms : List Node) (c i : Nat) :
    (gnodesOf ext int ms c)[i]? = (ms[i]?).map
      (fun m => GNode.mk (mkId (c + i)) (labelOf ext int m) (fillOf ext int m)) := by
  induction ms generalizing c i with
  | nil => simp [gnodesOf]
  | cons m rest ih =>
      cases i with
      | zero => simp [gnodesOf]
      | succ i =>
          simp only [gnodesOf, List.getElem?_cons_succ, ih (c + 1) i]
          rw [show c + 1 + i = c + (i + 1) from by omega]

theorem length_gnodesOf (ext int : List Nat) (ms : List Node) (c : Nat) :
    (gnodesOf ext int ms c).length = ms.length := by
  induction ms generalizing c with
  | nil => simp [gnodesOf]
  | cons m rest ih => simp [gnodesOf, ih (c + 1)]


theorem nodup_parts1 {o : Nat} {A : List Nat} (h : (o :: A).Nodup) :
    A.Nodup ∧ (∀ x ∈ A, x ≠ o) := by
  rw [List.nodup_cons] at h
  exact ⟨h.2, fun x hx he => h.1 (he ▸ hx)⟩

theorem nodup_parts2 {o : Nat} {A B : List Nat} (h : (o :: (A ++ B)).Nodup) :
    A.Nodup ∧ B.Nodup ∧ (∀ x ∈ A, x ≠ o) ∧ (∀ x ∈ B, x ≠ o ∧ x ∉ A) := by
  rw [List.nodup_cons, List.mem_append, List.nodup_append] at h
  obtain ⟨ho, hA, hB, hAB⟩ := h
  refine ⟨hA, hB, fun x hx he => ho (Or.inl (he ▸ hx)), fun x hx => ?_⟩
  exact ⟨fun he => ho (Or.inr (he ▸ hx)), fun hc => hAB hc hx⟩

theorem nodup_parts3 {o : Nat} {A B C : List Nat} (h : (o :: (A ++ (B ++ C))).Nodup) :
    A.Nodup ∧ B.Nodup ∧ C.Nodup ∧ (∀ x ∈ A, x ≠ o) ∧
      (∀ x ∈ B, x ≠ o ∧ x ∉ A) ∧ (∀ x ∈ C, x ≠ o ∧ x ∉ A ∧ x ∉ B) := by
  rw [List.nodup_cons, List.mem_append, List.mem_append, List.nodup_append,
    List.nodup_append] at h
  obtain ⟨ho, hA, ⟨hB, hC, hBC⟩, hArest⟩ := h
  rw [List.disjoint_append_right] at hArest
  obtain ⟨hAB, hAC⟩ := hArest
  refine ⟨hA, hB, hC, fun x hx he => ho (Or.inl (he ▸ hx)), fun x hx => ?_, fun x hx => ?_⟩
  · exact ⟨fun he => ho (Or.inr (Or.inl (he ▸ hx))), fun hc => hAB hc hx⟩
  · exact ⟨fun he => ho (Or.inr (Or.inr (he ▸ hx))), fun hc => hAC hc hx,
      fun hc => hBC hc hx⟩

theorem nodup_parts4 {o : Nat} {A B C D : List Nat}
    (h : (o :: (A ++ (B ++ (C ++ D)))).Nodup) :
    A.Nodup ∧ B.Nodup ∧ C.Nodup ∧ D.Nodup ∧ (∀ x ∈ A, x ≠ o) ∧
      (∀ x ∈ B, x ≠ o ∧ x ∉ A) ∧ (∀ x ∈ C, x ≠ o ∧ x ∉ A ∧ x ∉ B) ∧
      (∀ x ∈ D, x ≠ o ∧ x ∉ A ∧ x ∉ B ∧ x ∉ C) := by
  rw [List.nodup_cons, List.mem_append, List.mem_append, List.mem_append,
    List.nodup_append, List.nodup_append, List.nodup_append] at h
  obtain ⟨ho, hA, ⟨hB, ⟨hC, hD, hCD⟩, hBrest⟩, hArest⟩ := h
  rw [List.disjoint_append_right] at hBrest
  rw [List.disjoint_append_right, List.disjoint_append_right] at hArest
  obtain ⟨hBC, hBD⟩ := hBrest
  obtain ⟨hAB, hAC, hAD⟩ := hArest
  refine ⟨hA, hB, hC, hD, fun x hx he => ho (Or.inl (he ▸ hx)), fun x hx => ?_,
    fun x hx => ?_, fun x hx => ?_⟩
  · exact ⟨fun he => ho (Or.inr (Or.inl (he ▸ hx))), fun hc => hAB hc hx⟩
  · exact ⟨fun he => ho (Or.inr (Or.inr (Or.inl (he ▸ hx)))), fun hc => hAC hc hx,
      fun hc => hBC hc hx⟩
  · exact ⟨fun he => ho (Or.inr (Or.inr (Or.inr (he ▸ hx)))), fun hc => hAD hc hx,
      fun hc => hBD hc hx, fun hc => hCD hc hx⟩

mutual
theorem add_node_spec (ext int : List Nat) (n : Node) (pid : Option String)
    (flab : Option String) (st : St)
    (hnd : (oids n).Nodup) (hfr : ∀ x ∈ oids n, lookupId st.node_ids x = Option.none) :
    add_node ext int n pid flab st = St.mk (st.node_counter + plen n)
      (st.node_ids ++ idsOf (preorder n) st.node_counter)
      (st.nodes ++ gnodesOf ext int (preorder n) st.node_counter)
      (st.edges ++ specEdges n pid (flabStr flab) st.node_counter) := by
  cases n with
  | module o body =>
      have h0 : lookupId st.node_ids o = Option.none := hfr o (by simp)
      rw [add_node]
      simp only [oidOf, h0]
      rw [add_list_spec ext int body _ _ _ _
        (by simp [List.nodup_cons] at hnd; exact hnd.2)
        (by
          intro x hx
          simp only [List.nodup_cons, oids_module] at hnd
          exact lookupId_reg_ne _ _ _ _ (hfr x (by simp [hx]))
            (fun he => hnd.1 (he ▸ hx)))]
      simp only [St.mk.injEq]
      refine ⟨by simp [preorder, preorderNL, preorderNO]; omega, ?_, ?_, ?_⟩
      · simp [preorder, idsOf, oidOf, List.append_assoc]
      · simp [preorder, gnodesOf, List.append_assoc]
      · rw [specEdges]
        simp [List.append_assoc]
  | exprStmt o v =>
      have h0 : lookupId st.node_ids o = Option.none := hfr o (by simp)
      rw [add_node]
      simp only [oidOf, h0]
      rw [add_node_spec ext int v _ _ _
        (by simp [List.nodup_cons] at hnd; exact hnd.2)
        (by
          intro x hx
          simp only [List.nodup_cons, oids_exprStmt] at hnd
          exact lookupId_reg_ne _ _ _ _ (hfr x (by simp [hx]))
            (fun he => hnd.1 (he ▸ hx)))]
      simp only [St.mk.injEq]
      refine ⟨by simp [preorder, preorderNL, preorderNO]; omega, ?_, ?_, ?_⟩
      · simp [preorder, idsOf, oidOf, List.append_assoc]
      · simp [preorder, gnodesOf, List.append_assoc]
      · rw [specEdges]
        simp [List.append_assoc]
  | constantNode o v =>
      have h0 : lookupId st.node_ids o = Option.none := hfr o (by simp)
      rw [add_node]
      simp only [oidOf, h0]
      simp only [St.mk.injEq]
      refine ⟨by simp [preorder], ?_, ?_, ?_⟩
      · simp [preorder, idsOf, oidOf]
      · simp [preorder, gnodesOf]
      · rw [specEdges]
        simp
  | loadCtx o =>
      have h0 : lookupId st.node_ids o = Option.none := hfr o (by simp)
      rw [add_node]
      simp only [oidOf, h0]
      simp only [St.mk.injEq]
      refine ⟨by simp [preorder], ?_, ?_, ?_⟩
      · simp [preorder, idsOf, oidOf]
      · simp [preorder, gnodesOf]
      · rw [specEdges]
        simp
  | storeCtx o =>
      have h0 : lookupId st.node_ids o = Option.none := hfr o (by simp)
      rw [add_node]
      simp only [oidOf, h0]
      simp only [St.mk.injEq]
      refine ⟨by simp [preorder], ?_, ?_, ?_⟩
      · simp [preorder, idsOf, oidOf]
      · simp [preorder, gnodesOf]
      · rw [specEdges]
        simp
  | functionDef o nm args body dec rets =>
      have h0 : lookupId st.node_ids o = Option.none := hfr o (by simp)
      obtain ⟨hA, hB, hC, hD, hAo, hBrest, hCrest, hDrest⟩ :=
        nodup_parts4 (oids_functionDef o nm args body dec rets ▸ hnd)
      rw [add_node]
      simp only [oidOf, h0]
      rw [add_node_spec ext int args _ _ _ hA
        (fun x hx => lookupId_reg_ne _ _ _ _ (hfr x (by simp [hx])) (hAo x hx))]
      rw [add_list_spec ext int body _ _ _ _ hB
        (fun x hx => lookupId_ext_none _ _ _ _
          (lookupId_reg_ne _ _ _ _ (hfr x (by simp [hx])) (hBrest x hx).1)
          (hBrest x hx).2)]
      rw [add_list_spec ext int dec _ _ _ _ hC
        (fun x hx => lookupId_ext_none _ _ _ _
          (lookupId_ext_none _ _ _ _
            (lookupId_reg_ne _ _ _ _ (hfr x (by simp [hx])) (hCrest x hx).1)
            (hCrest x hx).2.1)
          (hCrest x hx).2.2)]
      rw [add_opt_spec ext int rets _ _ _ hD
        (fun x hx => lookupId_ext_none _ _ _ _
          (lookupId_ext_none _ _ _ _
            (lookupId_ext_none _ _ _ _
              (lookupId_reg_ne _ _ _ _ (hfr x (by simp [hx])) (hDrest x hx).1)
              (hDrest x hx).2.1)
            (hDrest x hx).2.2.1)
          (hDrest x hx).2.2.2)]
      simp only [St.mk.injEq]
      refine ⟨by simp [preorder, preorderNL, preorderNO]; omega, ?_, ?_, ?_⟩
      · rw [preorder, idsOf, idsOf_append, idsOf_append, idsOf_append]
        simp [oidOf, List.append_assoc]
      · rw [preorder, gnodesOf, gnodesOf_append, gnodesOf_append, gnodesOf_append]
        simp [List.append_assoc]
      · rw [specEdges]
        simp [List.append_assoc]
  | argumentsNode o args =>
      have h0 : lookupId st.node_ids o = Option.none := hfr o (by simp)
      obtain ⟨hA, hAo⟩ := nodup_parts1 (oids_argumentsNode o args ▸ hnd)
      rw [add_node]
      simp only [oidOf, h0]
      rw [add_list_spec ext int args _ _ _ _ hA
        (fun x hx => lookupId_reg_ne _ _ _ _ (hfr x (by simp [hx])) (hAo x hx))]
      simp only [St.mk.injEq]
      refine ⟨by simp [preorder, preorderNL, preorderNO]; omega, ?_, ?_, ?_⟩
      · simp [preorder, idsOf, oidOf, List.append_assoc]
      · simp [preorder, gnodesOf, List.append_assoc]
      · rw [specEdges]
        simp [List.append_assoc]
  | argNode o a ann =>
      have h0 : lookupId st.node_ids o = Option.none := hfr o (by simp)
      obtain ⟨hA, hAo⟩ := nodup_parts1 (oids_argNode o a ann ▸ hnd)
      rw [add_node]
      simp only [oidOf, h0]
      rw [add_opt_spec ext int ann _ _ _ hA
        (fun x hx => lookupId_reg_ne _ _ _ _ (hfr x (by simp [hx])) (hAo x hx))]
      simp only [St.mk.injEq]
      refine ⟨by simp [preorder, preorderNL, preorderNO]; omega, ?_, ?_, ?_⟩
      · simp [preorder, idsOf, oidOf, List.append_assoc]
      · simp [preorder, gnodesOf, List.append_assoc]
      · rw [specEdges]
        simp [List.append_assoc]
  | returnStmt o v =>
      have h0 : lookupId st.node_ids o = Option.none := hfr o (by simp)
      obtain ⟨hA, hAo⟩ := nodup_parts1 (oids_returnStmt o v ▸ hnd)
      rw [add_node]
      simp only [oidOf, h0]
      rw [add_opt_spec ext int v _ _ _ hA
        (fun x hx => lookupId_reg_ne _ _ _ _ (hfr x (by simp [hx])) (hAo x hx))]
      simp only [St.mk.injEq]
      refine ⟨by simp [preorder, preorderNL, preorderNO]; omega, ?_, ?_, ?_⟩
      · simp [preorder, idsOf, oidOf, List.append_assoc]
      · simp [preorder, gnodesOf, List.append_assoc]
      · rw [specEdges]
        simp [List.append_assoc]
  | callNode o f args kws =>
      have h0 : lookupId st.node_ids o = Option.none := hfr o (by simp)
      obtain ⟨hA, hB, hC, hAo, hBrest, hCrest⟩ :=
        nodup_parts3 (oids_callNode o f args kws ▸ hnd)
      rw [add_node]
      simp only [oidOf, h0]
      rw [add_node_spec ext int f _ _ _ hA
        (fun x hx => lookupId_reg_ne _ _ _ _ (hfr x (by simp [hx])) (hAo x hx))]
      rw [add_list_spec ext int args _ _ _ _ hB
        (fun x hx => lookupId_ext_none _ _ _ _
          (lookupId_reg_ne _ _ _ _ (hfr x (by simp [hx])) (hBrest x hx).1)
          (hBrest x hx).2)]
      rw [add_list_spec ext int kws _ _ _ _ hC
        (fun x hx => lookupId_ext_none _ _ _ _
          (lookupId_ext_none _ _ _ _
            (lookupId_reg_ne _ _ _ _ (hfr x (by simp [hx])) (hCrest x hx).1)
            (hCrest x hx).2.1)
          (hCrest x hx).2.2)]
      simp only [St.mk.injEq]
      refine ⟨by simp [preorder, preorderNL, preorderNO]; omega, ?_, ?_, ?_⟩
      · rw [preorder, idsOf, idsOf_append, idsOf_append]
        simp [oidOf, List.append_assoc]
      · rw [preorder, gnodesOf, gnodesOf_append, gnodesOf_append]
        simp [List.append_assoc]
      · rw [specEdges]
        simp [List.append_assoc]
  | attributeNode o v a ctx =>
      have h0 : lookupId st.node_ids o = Option.none := hfr o (by simp)
      obtain ⟨hA, hB, hAo, hBrest⟩ := nodup_parts2 (oids_attributeNode o v a ctx ▸ hnd)
      rw [add_node]
      simp only [oidOf, h0]
      rw [add_node_spec ext int v _ _ _ hA
        (fun x hx => lookupId_reg_ne _ _ _ _ (hfr x (by simp [hx])) (hAo x hx))]
      rw [add_node_spec ext int ctx _ _ _ hB
        (fun x hx => lookupId_ext_none _ _ _ _
          (lookupId_reg_ne _ _ _ _ (hfr x (by simp [hx])) (hBrest x hx).1)
          (hBrest x hx).2)]
      simp only [St.mk.injEq]
      refine ⟨by simp [preorder, preorderNL, preorderNO]; omega, ?_, ?_, ?_⟩
      · rw [preorder, idsOf, idsOf_append]
        simp [oidOf, List.append_assoc]
      · rw [preorder, gnodesOf, gnodesOf_append]
        simp [List.append_assoc]
      · rw [specEdges]
        simp [List.append_assoc]
  | nameNode o i ctx =>
      have h0 : lookupId st.node_ids o = Option.none := hfr o (by simp)
      obtain ⟨hA, hAo⟩ := nodup_parts1 (oids_nameNode o i ctx ▸ hnd)
      rw [add_node]
      simp only [oidOf, h0]
      rw [add_node_spec ext int ctx _ _ _ hA
        (fun x hx => lookupId_reg_ne _ _ _ _ (hfr x (by simp [hx])) (hAo x hx))]
      simp only [St.mk.injEq]
      refine ⟨by simp [preorder, preorderNL, preorderNO]; omega, ?_, ?_, ?_⟩
      · simp [preorder, idsOf, oidOf, List.append_assoc]
      · simp [preorder, gnodesOf, List.append_assoc]
      · rw [specEdges]
        simp [List.append_assoc]

theorem add_list_spec (ext int : List Nat) (ns : NodeList) (nid : String) (fld : String)
    (idx : Nat) (st : St)
    (hnd : (oidsNL ns).Nodup) (hfr : ∀ x ∈ oidsNL ns, lookupId st.node_ids x = Option.none) :
    add_list ext int ns nid fld idx st = St.mk (st.node_counter + plenNL ns)
      (st.node_ids ++ idsOf (preorderNL ns) st.node_counter)
      (st.nodes ++ gnodesOf ext int (preorderNL ns) st.node_counter)
      (st.edges ++ specEdgesNL ns nid fld idx st.node_counter) := by
  cases ns with
  | nil =>
      rw [add_list]
      simp [preorderNL, idsOf, gnodesOf, specEdgesNL]
  | cons c rest =>
      rw [add_list]
      rw [add_node_spec ext int c _ _ _
        (by simp [List.nodup_append] at hnd; exact hnd.1)
        (by
          intro x hx
          exact hfr x (by simp [hx]))]
      rw [add_list_spec ext int rest _ _ _ _
        (by simp [List.nodup_append] at hnd; exact hnd.2.1)
        (by
          intro x hx
          simp only [oidsNL_cons, List.nodup_append] at hnd
          refine lookupId_ext_none _ _ _ _ (hfr x (by simp [hx])) ?_
          show x ∉ oids c
          exact fun hc => hnd.2.2 hc hx)]
      simp only [St.mk.injEq]
      refine ⟨by simp [preorder, preorderNL, preorderNO]; omega, ?_, ?_, ?_⟩
      · rw [preorderNL, idsOf_append]
        simp [List.append_assoc]
      · rw [preorderNL, gnodesOf_append]
        simp [List.append_assoc]
      · rw [specEdgesNL]
        simp [List.append_assoc]

theorem add_opt_spec (ext int : List Nat) (o : NodeOpt) (nid : String) (fld : String)
    (st : St)
    (hnd : (oidsNO o).Nodup) (hfr : ∀ x ∈ oidsNO o, lookupId st.node_ids x = Option.none) :
    add_opt ext int o nid fld st = St.mk (st.node_counter + plenNO o)
      (st.node_ids ++ idsOf (preorderNO o) st.node_counter)
      (st.nodes ++ gnodesOf ext int (preorderNO o) st.node_counter)
      (st.edges ++ specEdgesNO o nid fld st.node_counter) := by
  cases o with
  | none =>
      rw [add_opt]
      simp [preorderNO, idsOf, gnodesOf, specEdgesNO]
  | some c =>
      rw [add_opt]
      rw [add_node_spec ext int c _ _ _ (by simpa using hnd) (by simpa using hfr)]
      simp [preorderNO, specEdgesNO]
end

mutual
theorem add_node_revisit (ext int : List Nat) (n : Node) (pid : Option String)
    (flab : Option String) (st : St)
    (hall : ∀ x ∈ oids n, (lookupId st.node_ids x).isSome) :
    add_node ext int n pid flab st = St.mk st.node_counter st.node_ids st.nodes
      (st.edges ++ specRevisit st.node_ids n pid (flabStr flab)) := by
  obtain ⟨nid, heq⟩ := Option.isSome_iff_exists.mp (hall (oidOf n) (by cases n <;> simp [oidOf]))
  have hl : lookD st.node_ids (oidOf n) = nid := by rw [lookD, heq]
  cases n with
  | module o body =>
      rw [add_node]
      simp only [oidOf] at heq hl ⊢
      simp only [heq]
      rw [add_list_revisit ext int body _ _ _ _ (by intro x hx; exact hall x (by simp [hx]))]
      rw [specRevisit]
      simp only [oidOf, hl]
      simp [List.append_assoc]
  | functionDef o nm args body dec rets =>
      rw [add_node]
      simp only [oidOf] at heq hl ⊢
      simp only [heq]
      rw [add_node_revisit ext int args _ _ _ (by intro x hx; exact hall x (by simp [hx]))]
      rw [add_list_revisit ext int body _ _ _ _ (by intro x hx; exact hall x (by simp [hx]))]
      rw [add_list_revisit ext int dec _ _ _ _ (by intro x hx; exact hall x (by simp [hx]))]
      rw [add_opt_revisit ext int rets _ _ _ (by intro x hx; exact hall x (by simp [hx]))]
      rw [specRevisit]
      simp only [oidOf, hl]
      simp [List.append_assoc]
  | argumentsNode o args =>
      rw [add_node]
      simp only [oidOf] at heq hl ⊢
      simp only [heq]
      rw [add_list_revisit ext int args _ _ _ _ (by intro x hx; exact hall x (by simp [hx]))]
      rw [specRevisit]
      simp only [oidOf, hl]
      simp [List.append_assoc]
  | argNode o a ann =>
      rw [add_node]
      simp only [oidOf] at heq hl ⊢
      simp only [heq]
      rw [add_opt_revisit ext int ann _ _ _ (by intro x hx; exact hall x (by simp [hx]))]
      rw [specRevisit]
      simp only [oidOf, hl]
      simp [List.append_assoc]
  | returnStmt o v =>
      rw [add_node]
      simp only [oidOf] at heq hl ⊢
      simp only [heq]
      rw [add_opt_revisit ext int v _ _ _ (by intro x hx; exact hall x (by simp [hx]))]
      rw [specRevisit]
      simp only [oidOf, hl]
      simp [List.append_assoc]
  | exprStmt o v =>
      rw [add_node]
      simp only [oidOf] at heq hl ⊢
      simp only [heq]
      rw [add_node_revisit ext int v _ _ _ (by intro x hx; exact hall x (by simp [hx]))]
      rw [specRevisit]
      simp only [oidOf, hl]
      simp [List.append_assoc]
  | callNode o f args kws =>
      rw [add_node]
      simp only [oidOf] at heq hl ⊢
      simp only [heq]
      rw [add_node_revisit ext int f _ _ _ (by intro x hx; exact hall x (by simp [hx]))]
      rw [add_list_revisit ext int args _ _ _ _ (by intro x hx; exact hall x (by simp [hx]))]
      rw [add_list_revisit ext int kws _ _ _ _ (by intro x hx; exact hall x (by simp [hx]))]
      rw [specRevisit]
      simp only [oidOf, hl]
      simp [List.append_assoc]
  | attributeNode o v a ctx =>
      rw [add_node]
      simp only [oidOf] at heq hl ⊢
      simp only [heq]
      rw [add_node_revisit ext int v _ _ _ (by intro x hx; exact hall x (by simp [hx]))]
      rw [add_node_revisit ext int ctx _ _ _ (by intro x hx; exact hall x (by simp [hx]))]
      rw [specRevisit]
      simp only [oidOf, hl]
      simp [List.append_assoc]
  | nameNode o i ctx =>
      rw [add_node]
      simp only [oidOf] at heq hl ⊢
      simp only [heq]
      rw [add_node_revisit ext int ctx _ _ _ (by intro x hx; exact hall x (by simp [hx]))]
      rw [specRevisit]
      simp only [oidOf, hl]
      simp [List.append_assoc]
  | constantNode o v =>
      rw [add_node]
      simp only [oidOf] at heq hl ⊢
      simp only [heq]
      rw [specRevisit]
      simp only [oidOf, hl]
      simp
  | loadCtx o =>
      rw [add_node]
      simp only [oidOf] at heq hl ⊢
      simp only [heq]
      rw [specRevisit]
      simp only [oidOf, hl]
      simp
  | storeCtx o =>
      rw [add_node]
      simp only [oidOf] at heq hl ⊢
      simp only [heq]
      rw [specRevisit]
      simp only [oidOf, hl]
      simp

theorem add_list_revisit (ext int : List Nat) (ns : NodeList) (nid : String) (fld : String)
    (idx : Nat) (st : St)
    (hall : ∀ x ∈ oidsNL ns, (lookupId st.node_ids x).isSome) :
    add_list ext int ns nid fld idx st = St.mk st.node_counter st.node_ids st.nodes
      (st.edges ++ specRevisitNL st.node_ids ns nid fld idx) := by
  cases ns with
  | nil =>
      rw [add_list]
      simp [specRevisitNL]
  | cons c rest =>
      rw [add_list]
      rw [add_node_revisit ext int c _ _ _ (by intro x hx; exact hall x (by simp [hx]))]
      rw [add_list_revisit ext int rest _ _ _ _ (by intro x hx; exact hall x (by simp [hx]))]
      rw [specRevisitNL]
      simp [List.append_assoc]

theorem add_opt_revisit (ext int : List Nat) (o : NodeOpt) (nid : String) (fld : String)
    (st : St)
    (hall : ∀ x ∈ oidsNO o, (lookupId st.node_ids x).isSome) :
    add_opt ext int o nid fld st = St.mk st.node_counter st.node_ids st.nodes
      (st.edges ++ specRevisitNO st.node_ids o nid fld) := by
  cases o with
  | none =>
      rw [add_opt]
      simp [specRevisitNO]
  | some c =>
      rw [add_opt]
      rw [add_node_revisit ext int c _ _ _ (by simpa using hall)]
      simp [specRevisitNO]
end

/-!  Edge-target characterization: in a fresh walk the targets of the
emitted edges are exactly the ids of the discovered nodes, in discovery
order (the root is a target only when a parent id was supplied). -/

theorem map_dst_edgesFor_some (p nid lab : String) :
    (edgesFor (Option.some p) nid lab).map GEdge.dst = [nid] := rfl

mutual
theorem specEdges_dst (n : Node) (p : String) (flab : String) (c : Nat) :
    (specEdges n (Option.some p) flab c).map GEdge.dst = idSeq c (plen n) := by
  cases n with
  | module o body =>
      rw [specEdges]
      simp only [List.map_append, map_dst_edgesFor_some]
      rw [specEdgesNL_dst body]
      simp only [plen_eq, plenNL_eq, preorder, List.length_cons]
      rw [idSeq]
      simp
  | functionDef o nm args body dec rets =>
      rw [specEdges]
      simp only [List.map_append, map_dst_edgesFor_some]
      rw [specEdges_dst args, specEdgesNL_dst body, specEdgesNL_dst dec,
        specEdgesNO_dst rets]
      simp only [plen_eq, plenNL_eq, plenNO_eq, preorder, List.length_cons,
        List.length_append]
      rw [idSeq, idSeq_append, idSeq_append, idSeq_append]
      simp
  | argumentsNode o args =>
      rw [specEdges]
      simp only [List.map_append, map_dst_edgesFor_some]
      rw [specEdgesNL_dst args]
      simp only [plen_eq, plenNL_eq, preorder, List.length_cons]
      rw [idSeq]
      simp
  | argNode o a ann =>
      rw [specEdges]
      simp only [List.map_append, map_dst_edgesFor_some]
      rw [specEdgesNO_dst ann]
      simp only [plen_eq, plenNO_eq, preorder, List.length_cons]
      rw [idSeq]
      simp
  | returnStmt o v =>
      rw [specEdges]
      simp only [List.map_append, map_dst_edgesFor_some]
      rw [specEdgesNO_dst v]
      simp only [plen_eq, plenNO_eq, preorder, List.length_cons]
      rw [idSeq]
      simp
  | exprStmt o v =>
      rw [specEdges]
      simp only [List.map_append, map_dst_edgesFor_some]
      rw [specEdges_dst v]
      simp only [plen_eq, preorder, List.length_cons]
      rw [idSeq]
      simp
  | callNode o f args kws =>
      rw [specEdges]
      simp only [List.map_append, map_dst_edgesFor_some]
      rw [specEdges_dst f, specEdgesNL_dst args, specEdgesNL_dst kws]
      simp only [plen_eq, plenNL_eq, preorder, List.length_cons, List.length_append]
      rw [idSeq, idSeq_append, idSeq_append]
      simp
  | attributeNode o v a ctx =>
      rw [specEdges]
      simp only [List.map_append, map_dst_edgesFor_some]
      rw [specEdges_dst v, specEdges_dst ctx]
      simp only [plen_eq, preorder, List.length_cons, List.length_append]
      rw [idSeq, idSeq_append]
      simp
  | nameNode o i ctx =>
      rw [specEdges]
      simp only [List.map_append, map_dst_edgesFor_some]
      rw [specEdges_dst ctx]
      simp only [plen_eq, preorder, List.length_cons]
      rw [idSeq]
      simp
  | constantNode o v =>
      rw [specEdges]
      simp only [List.map_append, map_dst_edgesFor_some]
      simp only [plen_eq, preorder, List.length_cons, List.length_nil]
      rw [idSeq]
      simp [specEdges, idSeq]
  | loadCtx o =>
      simp only [plen_eq, preorder, List.length_cons, List.length_nil]
      rw [idSeq]
      simp [specEdges, idSeq, edgesFor]
  | storeCtx o =>
      simp only [plen_eq, preorder, List.length_cons, List.length_nil]
      rw [idSeq]
      simp [specEdges, idSeq, edgesFor]

theorem specEdgesNL_dst (ns : NodeList) (p : String) (fld : String) (i : Nat) (c : Nat) :
    (specEdgesNL ns p fld i c).map GEdge.dst = idSeq c (plenNL ns) := by
  cases ns with
  | nil => simp [specEdgesNL, preorderNL, idSeq]
  | cons n rest =>
      rw [specEdgesNL]
      simp only [List.map_append]
      rw [specEdges_dst n, specEdgesNL_dst rest]
      simp only [preorderNL, plen_eq, plenNL_eq, List.length_append]
      rw [idSeq_append]

theorem specEdgesNO_dst (o : NodeOpt) (p : String) (fld : String) (c : Nat) :
    (specEdgesNO o p fld c).map GEdge.dst = idSeq c (plenNO o) := by
  cases o with
  | none => simp [specEdgesNO, preorderNO, idSeq]
  | some n =>
      rw [specEdgesNO]
      rw [specEdges_dst n]
      simp [preorderNO]
end

theorem specEdges_dst_none (n : Node) (flab : String) (c : Nat) :
    (specEdges n Option.none flab c).map GEdge.dst = idSeq (c + 1) (plen n - 1) := by
  cases n with
  | module o body =>
      rw [specEdges]
      simp only [edgesFor, List.nil_append, List.map_append]
      rw [specEdgesNL_dst body]
      simp [preorder]
  | functionDef o nm args body dec rets =>
      rw [specEdges]
      simp only [edgesFor, List.nil_append, List.map_append]
      rw [specEdges_dst args, specEdgesNL_dst body, specEdgesNL_dst dec,
        specEdgesNO_dst rets]
      simp only [plen_eq, plenNL_eq, plenNO_eq, preorder, List.length_cons,
        List.length_append, Nat.add_sub_cancel]
      rw [idSeq_append, idSeq_append, idSeq_append]
  | argumentsNode o args =>
      rw [specEdges]
      simp only [edgesFor, List.nil_append, List.map_append]
      rw [specEdgesNL_dst args]
      simp [preorder]
  | argNode o a ann =>
      rw [specEdges]
      simp only [edgesFor, List.nil_append, List.map_append]
      rw [specEdgesNO_dst ann]
      simp [preorder]
  | returnStmt o v =>
      rw [specEdges]
      simp only [edgesFor, List.nil_append, List.map_append]
      rw [specEdgesNO_dst v]
      simp [preorder]
  | exprStmt o v =>
      rw [specEdges]
      simp only [edgesFor, List.nil_append, List.map_append]
      rw [specEdges_dst v]
      simp [preorder]
  | callNode o f args kws =>
      rw [specEdges]
      simp only [edgesFor, List.nil_append, List.map_append]
      rw [specEdges_dst f, specEdgesNL_dst args, specEdgesNL_dst kws]
      simp only [plen_eq, plenNL_eq, preorder, List.length_cons, List.length_append,
        Nat.add_sub_cancel]
      rw [idSeq_append, idSeq_append]
  | attributeNode o v a ctx =>
      rw [specEdges]
      simp only [edgesFor, List.nil_append, List.map_append]
      rw [specEdges_dst v, specEdges_dst ctx]
      simp only [plen_eq, preorder, List.length_cons, List.length_append,
        Nat.add_sub_cancel]
      rw [idSeq_append]
  | nameNode o i ctx =>
      rw [specEdges]
      simp only [edgesFor, List.nil_append, List.map_append]
      rw [specEdges_dst ctx]
      simp [preorder]
  | constantNode o v =>
      simp [specEdges, edgesFor, preorder, idSeq]
  | loadCtx o =>
      simp [specEdges, edgesFor, preorder, idSeq]
  | storeCtx o =>
      simp [specEdges, edgesFor, preorder, idSeq]

theorem count_idSeq (L : Nat) : ∀ c k : Nat,
    ((idSeq c L).filter (fun d => d == mkId k)).length =
      if c ≤ k ∧ k < c + L then 1 else 0 := by
  induction L with
  | zero =>
      intro c k
      rw [idSeq]
      rw [if_neg (by omega)]
      rfl
  | succ L ih =>
      intro c k
      rw [idSeq, List.filter_cons]
      by_cases hk : c = k
      · subst hk
        simp only [beq_self_eq_true, if_true, List.length_cons, ih (c + 1) c]
        rw [if_neg (by omega), if_pos (by omega)]
      · have hne : (mkId c == mkId k) = false := by
          rw [beq_eq_false_iff_ne]
          exact fun he => hk (mkId_inj he)
        simp only [hne, Bool.false_eq_true, if_false, ih (c + 1) k]
        rw [if_congr (by omega : (c + 1 ≤ k ∧ k < c + 1 + L) ↔ (c ≤ k ∧ k < c + (L + 1))) rfl rfl]

theorem mem_gnodesOf {ext int : List Nat} {ms : List Node} {c : Nat} {gn : GNode}
    (h : gn ∈ gnodesOf ext int ms c) :
    ∃ j m, ms[j]? = Option.some m ∧ j < ms.length ∧
      gn = GNode.mk (mkId (c + j)) (labelOf ext int m) (fillOf ext int m) := by
  obtain ⟨j, hj⟩ := List.mem_iff_getElem?.mp h
  rw [getElem?_gnodesOf] at hj
  obtain ⟨m, hm, he⟩ := Option.map_eq_some'.mp hj
  exact ⟨j, m, hm, (List.getElem?_eq_some.mp hm).1, he.symm⟩

theorem length_filter_dst (l : List GEdge) (x : String) :
    (l.filter (fun e => e.dst == x)).length =
      ((l.map GEdge.dst).filter (fun d => d == x)).length := by
  rw [List.filter_map, List.length_map]
  rfl

theorem runGraph_spec (t : Node) (h : distinctOids t) :
    runGraph t = St.mk (plen t) (idsOf (preorder t) 0)
      (gnodesOf (extOf t) (intOf t) (preorder t) 0) (specEdges t Option.none "" 0) := by
  rw [runGraph, add_node_spec (extOf t) (intOf t) t Option.none Option.none _ h
    (by intro x hx; rfl)]
  simp

theorem mkId_zero : mkId 0 = "node0" := rfl

/-- Claim C5: for every input tree (all object identities distinct), every
graph node produced by the walk except the root `node0` has exactly one
edge whose target is that node's id.  Since there is exactly one such edge
overall, it is the one emitted by the step that first discovered the node
(the walk emits a node's incoming edge immediately after registering it and
before recursing into its fields). -/
theorem claim_C5 (t : Node) (h : distinctOids t) (gn : GNode)
    (hmem : gn ∈ (runGraph t).nodes) (hroot : gn.id ≠ "node0") :
    ((runGraph t).edges.filter (fun e => e.dst == gn.id)).length = 1 := by
  rw [runGraph_spec t h] at hmem ⊢
  dsimp only at hmem ⊢
  obtain ⟨j, m, hm, hj, he⟩ := mem_gnodesOf hmem
  subst he
  dsimp only at hroot ⊢
  rw [length_filter_dst, specEdges_dst_none, count_idSeq]
  have hj0 : j ≠ 0 := by
    intro h0
    rw [h0] at hroot
    exact hroot rfl
  rw [if_pos (by simp only [plen_eq]; omega)]

theorem tW5_distinct : distinctOids tW5 := by
  simp [distinctOids, tW5]

theorem gnW5_mem : gnW5 ∈ (runGraph tW5).nodes := by
  rw [runGraph_spec tW5 tW5_distinct]
  dsimp only
  show gnW5 ∈ gnodesOf (extOf tW5) (intOf tW5) (preorder tW5) 0
  have hp : preorder tW5 = [tW5, Node.returnStmt 1 NodeOpt.none] := by
    simp [tW5, preorder, preorderNL, preorderNO]
  rw [hp]
  rw [gnodesOf, gnodesOf, gnodesOf]
  simp only [labelOf, fillOf]
  right
  left

/-- Witness for C5 at a concrete two-node tree. -/
theorem claim_C5_witness :
    distinctOids tW5 ∧ gnW5 ∈ (runGraph tW5).nodes ∧ gnW5.id ≠ "node0" ∧
      ((runGraph tW5).edges.filter (fun e => e.dst == gnW5.id)).length = 1 :=
  ⟨tW5_distinct, gnW5_mem, by decide,
    claim_C5 tW5 tW5_distinct gnW5 gnW5_mem (by decide)⟩

/-!  Lemmas about the constant-label escaping and truncation. -/

theorem length_escChars_ge (l : List Char) : l.length ≤ (escChars l).length := by
  induction l with
  | nil => simp [escChars]
  | cons c cs ih =>
      rw [escChars]
      by_cases hc : c = '\n'
      · simp [hc]
        omega
      · simp [hc]
        omega

theorem escChars_no_newline (l : List Char) : ∀ ch ∈ escChars l, ch ≠ '\n' := by
  induction l with
  | nil => simp [escChars]
  | cons c cs ih =>
      intro ch hch
      rw [escChars] at hch
      by_cases hc : c = '\n'
      · rw [if_pos hc] at hch
        simp at hch
        rcases hch with h | h | h
        · subst h; decide
        · subst h; decide
        · exact ih ch h
      · rw [if_neg hc] at hch
        simp at hch
        rcases hch with h | h
        · subst h; exact hc
        · exact ih ch h

theorem strLength_data (s : String) : s.length = s.data.length := rfl

theorem length_escNL_ge (v : String) : v.length ≤ (escNL v).length := by
  rw [strLength_data, strLength_data]
  exact length_escChars_ge v.data

theorem length_strTake (s : String) (k : Nat) : (strTake s k).length = min k s.length := by
  rw [strLength_data, strLength_data, strTake]
  exact List.length_take k s.data

theorem strLength_append (a b : String) : (a ++ b).length = a.length + b.length := by
  rw [strLength_data, strLength_data, strLength_data, strData_append,
    List.length_append]

/-- Claim C4: for every `ast.Constant` string value of length greater than
20, the quoted payload of the synthesized label is the first 17 characters
of the newline-escaped form followed by the 3-character ellipsis marker, so
its length is exactly 20, and no raw newline survives the escaping. -/
theorem claim_C4 (ext int : List Nat) (o : Nat) (v : String) (h : 20 < v.length) :
    ∃ payload, labelOf ext int (Node.constantNode o (ConstVal.str v)) =
        "Constant: \"" ++ payload ++ "\"" ∧
      payload = strTake (escNL v) 17 ++ "..." ∧ payload.length = 20 ∧
      ∀ ch ∈ (escNL v).data, ch ≠ '\n' := by
  have hlen : 20 < (escNL v).length := lt_of_lt_of_le h (length_escNL_ge v)
  refine ⟨strTake (escNL v) 17 ++ "...", ?_, rfl, ?_, escChars_no_newline v.data⟩
  · rw [labelOf]
    rw [if_pos hlen]
  · rw [strLength_append, length_strTake]
    have : min 17 (escNL v).length = 17 := by omega
    rw [this]
    rfl

/-- Witness for C4 at a concrete 21-character string constant. -/
theorem claim_C4_witness :
    20 < ("abcdefghijklmnopqrstu" : String).length ∧
      ∃ payload, labelOf [] [] (Node.constantNode 0
          (ConstVal.str "abcdefghijklmnopqrstu")) =
          "Constant: \"" ++ payload ++ "\"" ∧
        payload = strTake (escNL "abcdefghijklmnopqrstu") 17 ++ "..." ∧
        payload.length = 20 ∧
        ∀ ch ∈ (escNL "abcdefghijklmnopqrstu").data, ch ≠ '\n' :=
  ⟨by decide, claim_C4 [] [] 0 "abcdefghijklmnopqrstu" (by decide)⟩

/-- Claim C10: the 20-character truncation threshold is tested on the
newline-escaped form of the string, not on the original value: a string of
length at most 20 whose escaped form exceeds 20 characters is still
truncated to the first 17 escaped characters plus the ellipsis marker. -/
theorem claim_C10 (ext int : List Nat) (o : Nat) (v : String)
    (h1 : v.length ≤ 20) (h2 : 20 < (escNL v).length) :
    ∃ payload, labelOf ext int (Node.constantNode o (ConstVal.str v)) =
        "Constant: \"" ++ payload ++ "\"" ∧
      payload = strTake (escNL v) 17 ++ "..." ∧ payload.length = 20 := by
  refine ⟨strTake (escNL v) 17 ++ "...", ?_, rfl, ?_⟩
  · rw [labelOf]
    rw [if_pos h2]
  · rw [strLength_append, length_strTake]
    have : min 17 (escNL v).length = 17 := by omega
    rw [this]
    rfl

/-- Witness for C10 at a string of eleven newlines: length 11, escaped
length 22, so the label is truncated although the value has at most 20
characters. -/
theorem claim_C10_witness :
    ("\n\n\n\n\n\n\n\n\n\n\n" : String).length ≤ 20 ∧
      20 < (escNL "\n\n\n\n\n\n\n\n\n\n\n").length ∧
      ∃ payload, labelOf [] [] (Node.constantNode 0
          (ConstVal.str "\n\n\n\n\n\n\n\n\n\n\n")) =
          "Constant: \"" ++ payload ++ "\"" ∧
        payload = strTake (escNL "\n\n\n\n\n\n\n\n\n\n\n") 17 ++ "..." ∧
        payload.length = 20 :=
  ⟨by decide, by decide,
    claim_C10 [] [] 0 "\n\n\n\n\n\n\n\n\n\n\n" (by decide) (by decide)⟩

/-!  Lemmas about the `FindYamlLoad` visitor output. -/

mutual
theorem findYaml_oids_sublist (n : Node) (cur : Option String) :
    ((findYaml n cur).map fun p => oidOf p.1).Sublist (oids n) := by
  cases n with
  | module o body =>
      rw [findYaml, oids_module]
      exact (findYamlNL_oids_sublist body cur).cons o
  | functionDef o nm args body dec rets =>
      rw [findYaml, oids_functionDef]
      simp only [List.map_append]
      exact (((findYaml_oids_sublist args _).append
        (((findYamlNL_oids_sublist body _).append
          (((findYamlNL_oids_sublist dec _).append
            (findYamlNO_oids_sublist rets _)))))).cons o)
  | argumentsNode o args =>
      rw [findYaml, oids_argumentsNode]
      exact (findYamlNL_oids_sublist args cur).cons o
  | argNode o a ann =>
      rw [findYaml, oids_argNode]
      exact (findYamlNO_oids_sublist ann cur).cons o
  | returnStmt o v =>
      rw [findYaml, oids_returnStmt]
      exact (findYamlNO_oids_sublist v cur).cons o
  | exprStmt o v =>
      rw [findYaml, oids_exprStmt]
      exact (findYaml_oids_sublist v cur).cons o
  | callNode o f args kws =>
      rw [findYaml, oids_callNode]
      simp only [List.map_append]
      by_cases hy : isYamlLoadFunc f
      · rw [if_pos hy]
        simp only [List.map_cons, List.map_nil, oidOf, List.cons_append, List.nil_append]
        exact ((findYaml_oids_sublist f _).append
          ((findYamlNL_oids_sublist args _).append
            (findYamlNL_oids_sublist kws _))).cons₂ o
      · rw [if_neg hy]
        simp only [List.map_nil, List.nil_append]
        exact ((findYaml_oids_sublist f _).append
          ((findYamlNL_oids_sublist args _).append
            (findYamlNL_oids_sublist kws _))).cons o
  | attributeNode o v a ctx =>
      rw [findYaml, oids_attributeNode]
      simp only [List.map_append]
      exact ((findYaml_oids_sublist v _).append (findYaml_oids_sublist ctx _)).cons o
  | nameNode o i ctx =>
      rw [findYaml, oids_nameNode]
      exact (findYaml_oids_sublist ctx cur).cons o
  | constantNode o vv =>
      rw [findYaml]
      simp
  | loadCtx o =>
      rw [findYaml]
      simp
  | storeCtx o =>
      rw [findYaml]
      simp

theorem findYamlNL_oids_sublist (ns : NodeList) (cur : Option String) :
    ((findYamlNL ns cur).map fun p => oidOf p.1).Sublist (oidsNL ns) := by
  cases ns with
  | nil =>
      rw [findYamlNL]
      simp
  | cons n rest =>
      rw [findYamlNL, oidsNL_cons]
      simp only [List.map_append]
      exact (findYaml_oids_sublist n cur).append (findYamlNL_oids_sublist rest cur)

theorem findYamlNO_oids_sublist (o : NodeOpt) (cur : Option String) :
    ((findYamlNO o cur).map fun p => oidOf p.1).Sublist (oidsNO o) := by
  cases o with
  | none =>
      rw [findYamlNO]
      simp
  | some n =>
      rw [findYamlNO, oidsNO_some]
      exact findYaml_oids_sublist n cur
end

mutual
theorem findYaml_mem_shape (n : Node) (cur : Option String) :
    ∀ p ∈ findYaml n cur, p.1 ∈ preorder n ∧
      ∃ o f args kws, p.1 = Node.callNode o f args kws ∧ isYamlLoadFunc f = true := by
  cases n with
  | module o body =>
      intro p hp
      rw [findYaml] at hp
      obtain ⟨h1, h2⟩ := findYamlNL_mem_shape body cur p hp
      exact ⟨by rw [preorder]; exact List.mem_cons_of_mem _ h1, h2⟩
  | functionDef o nm args body dec rets =>
      intro p hp
      rw [findYaml] at hp
      simp only [List.mem_append] at hp
      rw [preorder]
      rcases hp with h | h | h | h
      · obtain ⟨h1, h2⟩ := findYaml_mem_shape args _ p h
        exact ⟨List.mem_cons_of_mem _ (by simp [h1]), h2⟩
      · obtain ⟨h1, h2⟩ := findYamlNL_mem_shape body _ p h
        exact ⟨List.mem_cons_of_mem _ (by simp [h1]), h2⟩
      · obtain ⟨h1, h2⟩ := findYamlNL_mem_shape dec _ p h
        exact ⟨List.mem_cons_of_mem _ (by simp [h1]), h2⟩
      · obtain ⟨h1, h2⟩ := findYamlNO_mem_shape rets _ p h
        exact ⟨List.mem_cons_of_mem _ (by simp [h1]), h2⟩
  | argumentsNode o args =>
      intro p hp
      rw [findYaml] at hp
      obtain ⟨h1, h2⟩ := findYamlNL_mem_shape args cur p hp
      exact ⟨by rw [preorder]; exact List.mem_cons_of_mem _ h1, h2⟩
  | argNode o a ann =>
      intro p hp
      rw [findYaml] at hp
      obtain ⟨h1, h2⟩ := findYamlNO_mem_shape ann cur p hp
      exact ⟨by rw [preorder]; exact List.mem_cons_of_mem _ h1, h2⟩
  | returnStmt o v =>
      intro p hp
      rw [findYaml] at hp
      obtain ⟨h1, h2⟩ := findYamlNO_mem_shape v cur p hp
      exact ⟨by rw [preorder]; exact List.mem_cons_of_mem _ h1, h2⟩
  | exprStmt o v =>
      intro p hp
      rw [findYaml] at hp
      obtain ⟨h1, h2⟩ := findYaml_mem_shape v cur p hp
      exact ⟨by rw [preorder]; exact List.mem_cons_of_mem _ h1, h2⟩
  | callNode o f args kws =>
      intro p hp
      rw [findYaml] at hp
      simp only [List.mem_append] at hp
      rw [preorder]
      rcases hp with h | h | h | h
      · by_cases hy : isYamlLoadFunc f
        · rw [if_pos hy] at h
          simp only [List.mem_singleton] at h
          subst h
          exact ⟨List.mem_cons_self _ _, o, f, args, kws, rfl, hy⟩
        · rw [if_neg hy] at h
          simp at h
      · obtain ⟨h1, h2⟩ := findYaml_mem_shape f _ p h
        exact ⟨List.mem_cons_of_mem _ (by simp [h1]), h2⟩
      · obtain ⟨h1, h2⟩ := findYamlNL_mem_shape args _ p h
        exact ⟨List.mem_cons_of_mem _ (by simp [h1]), h2⟩
      · obtain ⟨h1, h2⟩ := findYamlNL_mem_shape kws _ p h
        exact ⟨List.mem_cons_of_mem _ (by simp [h1]), h2⟩
  | attributeNode o v a ctx =>
      intro p hp
      rw [findYaml] at hp
      simp only [List.mem_append] at hp
      rw [preorder]
      rcases hp with h | h
      · obtain ⟨h1, h2⟩ := findYaml_mem_shape v _ p h
        exact ⟨List.mem_cons_of_mem _ (by simp [h1]), h2⟩
      · obtain ⟨h1, h2⟩ := findYaml_mem_shape ctx _ p h
        exact ⟨List.mem_cons_of_mem _ (by simp [h1]), h2⟩
  | nameNode o i ctx =>
      intro p hp
      rw [findYaml] at hp
      obtain ⟨h1, h2⟩ := findYaml_mem_shape ctx cur p hp
      exact ⟨by rw [preorder]; exact List.mem_cons_of_mem _ h1, h2⟩
  | constantNode o vv =>
      intro p hp
      rw [findYaml] at hp
      simp at hp
  | loadCtx o =>
      intro p hp
      rw [findYaml] at hp
      simp at hp
  | storeCtx o =>
      intro p hp
      rw [findYaml] at hp
      simp at hp

theorem findYamlNL_mem_shape (ns : NodeList) (cur : Option String) :
    ∀ p ∈ findYamlNL ns cur, p.1 ∈ preorderNL ns ∧
      ∃ o f args kws, p.1 = Node.callNode o f args kws ∧ isYamlLoadFunc f = true := by
  cases ns with
  | nil =>
      intro p hp
      rw [findYamlNL] at hp
      simp at hp
  | cons n rest =>
      intro p hp
      rw [findYamlNL] at hp
      simp only [List.mem_append] at hp
      rw [preorderNL]
      rcases hp with h | h
      · obtain ⟨h1, h2⟩ := findYaml_mem_shape n cur p h
        exact ⟨List.mem_append_left _ h1, h2⟩
      · obtain ⟨h1, h2⟩ := findYamlNL_mem_shape rest cur p h
        exact ⟨List.mem_append_right _ h1, h2⟩

theorem findYamlNO_mem_shape (o : NodeOpt) (cur : Option String) :
    ∀ p ∈ findYamlNO o cur, p.1 ∈ preorderNO o ∧
      ∃ oo f args kws, p.1 = Node.callNode oo f args kws ∧ isYamlLoadFunc f = true := by
  cases o with
  | none =>
      intro p hp
      rw [findYamlNO] at hp
      simp at hp
  | some n =>
      intro p hp
      rw [findYamlNO] at hp
      rw [preorderNO]
      exact findYaml_mem_shape n cur p hp
end

/-- The object ids collected by the visitor are distinct whenever the tree
has distinct identities. -/
theorem findYaml_oids_nodup (t : Node) (h : distinctOids t) :
    ((findYaml t Option.none).map fun p => oidOf p.1).Nodup :=
  (findYaml_oids_sublist t Option.none).nodup h

theorem mem_external_calls {pairs : List (Node × Option String)} {o : Nat} :
    o ∈ external_calls pairs ↔
      ∃ p ∈ pairs, externalCond p = true ∧ oidOf p.1 = o := by
  simp [external_calls, List.mem_filter, and_assoc]

theorem mem_internal_calls {pairs : List (Node × Option String)} {o : Nat} :
    o ∈ internal_calls pairs ↔
      ∃ p ∈ pairs, externalCond p = false ∧ oidOf p.1 = o := by
  simp [internal_calls, List.mem_filter, and_assoc]

/-- Entries of the visitor output are determined by their object id on
distinct-identity trees. -/
theorem findYaml_entry_unique (t : Node) (h : distinctOids t)
    {p q : Node × Option String} (hp : p ∈ findYaml t Option.none)
    (hq : q ∈ findYaml t Option.none) (ho : oidOf p.1 = oidOf q.1) : p = q :=
  List.inj_on_of_nodup_map (findYaml_oids_nodup t h) hp hq ho

/-- Claim C2: for a call collected by the `yaml.load` matcher, the verdict
is external exactly when the innermost enclosing function is the sentinel
`_external_load` or the first argument subtree references the name
`request`, and internal exactly otherwise; a call with no positional
arguments is treated as not referencing `request`. -/
theorem claim_C2 (t : Node) (h : distinctOids t) (c : Node) (fn : Option String)
    (hm : (c, fn) ∈ findYaml t Option.none) :
    (oidOf c ∈ extOf t ↔ (fn = Option.some "_external_load" ∨
        is_external_input (firstArg c) = true)) ∧
    (oidOf c ∈ intOf t ↔ ¬(fn = Option.some "_external_load" ∨
        is_external_input (firstArg c) = true)) ∧
    is_external_input Option.none = false := by
  have hcond : externalCond (c, fn) = true ↔
      (fn = Option.some "_external_load" ∨ is_external_input (firstArg c) = true) := by
    rw [externalCond]
    simp
  refine ⟨?_, ?_, rfl⟩
  · rw [extOf, mem_external_calls]
    constructor
    · rintro ⟨p, hp, hpc, hpo⟩
      have : p = (c, fn) := findYaml_entry_unique t h hp hm hpo
      subst this
      exact hcond.mp hpc
    · intro hc
      exact ⟨(c, fn), hm, hcond.mpr hc, rfl⟩
  · rw [intOf, mem_internal_calls]
    constructor
    · rintro ⟨p, hp, hpc, hpo⟩
      have : p = (c, fn) := findYaml_entry_unique t h hp hm hpo
      subst this
      intro hc
      rw [hcond.mpr hc] at hpc
      exact Bool.true_eq_false.mp hpc
    · intro hc
      refine ⟨(c, fn), hm, ?_, rfl⟩
      rcases Bool.eq_false_or_eq_true (externalCond (c, fn)) with ht | hf
      · exact absurd (hcond.mp ht) hc
      · exact hf

theorem tW2_distinct : distinctOids tW2 := by
  simp [distinctOids, tW2, cW2]

theorem tW2_pair_mem : (cW2, Option.some "handler") ∈ findYaml tW2 Option.none := by
  rw [tW2, findYaml, findYamlNL, findYaml, findYamlNL, findYamlNO, findYaml]
  simp [findYaml, findYamlNL, findYamlNO, isYamlLoadFunc, cW2]

/-- Witness for C2: the `yaml.load(request)` call inside `handler` is
classified by exactly the stated condition (and is in fact external, since
its first argument references `request`). -/
theorem claim_C2_witness :
    distinctOids tW2 ∧ (cW2, Option.some "handler") ∈ findYaml tW2 Option.none ∧
      ((oidOf cW2 ∈ extOf tW2 ↔ (Option.some "handler" = Option.some "_external_load" ∨
          is_external_input (firstArg cW2) = true)) ∧
        (oidOf cW2 ∈ intOf tW2 ↔ ¬(Option.some "handler" = Option.some "_external_load" ∨
          is_external_input (firstArg cW2) = true)) ∧
        is_external_input Option.none = false) :=
  ⟨tW2_distinct, tW2_pair_mem,
    claim_C2 tW2 tW2_distinct cW2 (Option.some "handler") tW2_pair_mem⟩

theorem oid_inj_in_preorder (t : Node) (h : distinctOids t) {a b : Node}
    (ha : a ∈ preorder t) (hb : b ∈ preorder t) (ho : oidOf a = oidOf b) : a = b :=
  List.inj_on_of_nodup_map h ha hb ho

/-- Claim C8: on a distinct-identity tree no call is classified both
external and internal, and a call node not matching the `yaml.load`
pattern lands in neither set; its graph node carries no fill color and its
label is the plain call label (the label computed with empty
classification sets, hence without any external/internal suffix). -/
theorem claim_C8 (t : Node) (h : distinctOids t) :
    (∀ o, ¬(o ∈ extOf t ∧ o ∈ intOf t)) ∧
    (∀ (i : Nat) (c : Node), (preorder t)[i]? = Option.some c → isNonYamlCall c = true →
      oidOf c ∉ extOf t ∧ oidOf c ∉ intOf t ∧
      ∃ gn : GNode, (runGraph t).nodes[i]? = Option.some gn ∧
        gn.fill = Option.none ∧ gn.label = labelOf [] [] c) := by
  have hnotin : ∀ c, isNonYamlCall c = true → c ∈ preorder t →
      oidOf c ∉ extOf t ∧ oidOf c ∉ intOf t := by
    intro c hny hcp
    have hshape : ∀ p, p ∈ findYaml t Option.none → oidOf p.1 = oidOf c → False := by
      intro p hp ho
      obtain ⟨hmem, oo, f, args, kws, hpc, hyf⟩ := findYaml_mem_shape t Option.none p hp
      have : p.1 = c := oid_inj_in_preorder t h hmem hcp ho
      rw [this] at hpc
      rw [hpc] at hny
      rw [isNonYamlCall, hyf] at hny
      simp at hny
    constructor
    · rw [extOf, mem_external_calls]
      rintro ⟨p, hp, _, hpo⟩
      exact hshape p hp hpo
    · rw [intOf, mem_internal_calls]
      rintro ⟨p, hp, _, hpo⟩
      exact hshape p hp hpo
  constructor
  · intro o ⟨he, hi⟩
    obtain ⟨p, hp, hpc, hpo⟩ := (mem_external_calls).mp he
    obtain ⟨q, hq, hqc, hqo⟩ := (mem_internal_calls).mp hi
    have : p = q := findYaml_entry_unique t h hp hq (by rw [hpo, hqo])
    subst this
    rw [hpc] at hqc
    exact Bool.true_eq_false.mp hqc
  · intro i c hic hny
    have hcp : c ∈ preorder t := List.mem_iff_getElem?.mpr (Exists.intro i hic)
    obtain ⟨hne, hni⟩ := hnotin c hny hcp
    refine ⟨hne, hni, ?_⟩
    rw [runGraph_spec t h]
    dsimp only
    rw [getElem?_gnodesOf, hic]
    obtain ⟨oo, f, args, kws, hc⟩ : ∃ oo f args kws, c = Node.callNode oo f args kws := by
      cases c <;> first
        | exact ⟨_, _, _, _, rfl⟩
        | simp [isNonYamlCall] at hny
    subst hc
    have hoid : oidOf (Node.callNode oo f args kws) = oo := rfl
    rw [hoid] at hne hni
    refine ⟨_, rfl, ?_, ?_⟩
    · simp only [fillOf]
      rw [if_neg hne, if_neg hni]
    · simp only [labelOf]
      rw [if_neg hne, if_neg hni]
      rw [if_neg (by simp), if_neg (by simp)]

theorem tW8_distinct : distinctOids tW8 := by
  simp [distinctOids, tW8]

/-- Witness for C8 at the concrete tree `tW8`. -/
theorem claim_C8_witness :
    distinctOids tW8 ∧
      ((∀ o, ¬(o ∈ extOf tW8 ∧ o ∈ intOf tW8)) ∧
        (∀ (i : Nat) (c : Node), (preorder tW8)[i]? = Option.some c →
          isNonYamlCall c = true →
          oidOf c ∉ extOf tW8 ∧ oidOf c ∉ intOf tW8 ∧
          ∃ gn : GNode, (runGraph tW8).nodes[i]? = Option.some gn ∧
            gn.fill = Option.none ∧ gn.label = labelOf [] [] c)) :=
  ⟨tW8_distinct, claim_C8 tW8 tW8_distinct⟩

theorem strAppend_assoc (a b c : String) : (a ++ b) ++ c = a ++ (b ++ c) :=
  String.ext (by
    rw [strData_append, strData_append, strData_append, strData_append,
      List.append_assoc])

/-- The label of a `FunctionDef` node in terms of its name and parameter
count. -/
theorem labelOf_fdshape (ext int : List Nat) {nm : String} {k : Nat} {n : Node}
    (h : isFDshape nm k n) :
    labelOf ext int n = "FunctionDef: name=" ++ nm ++ ", args=" ++ Nat.repr k := by
  obtain ⟨o, args, body, dec, rets, rfl, hk⟩ := h
  rw [labelOf, hk]

/-- Claim C9: on a distinct-identity tree, two distinct occurrences (at
positions `i ≠ j` of the discovery order) of structurally identical
function definitions with the same name and parameter count yield two
graph nodes with distinct ids and equal label strings containing that
name: deduplication is keyed on object identity, never on structural
value. -/
theorem claim_C9 (t : Node) (h : distinctOids t) (nm : String) (k i j : Nat)
    (ci cj : Node) (hi : (preorder t)[i]? = Option.some ci)
    (hj : (preorder t)[j]? = Option.some cj) (hij : i ≠ j)
    (hfi : isFDshape nm k ci) (hfj : isFDshape nm k cj) :
    ∃ gi gj : GNode, (runGraph t).nodes[i]? = Option.some gi ∧
      (runGraph t).nodes[j]? = Option.some gj ∧ gi.id ≠ gj.id ∧
      gi.label = gj.label ∧
      ∃ pre post : String, gi.label = pre ++ (nm ++ post) := by
  rw [runGraph_spec t h]
  dsimp only
  rw [getElem?_gnodesOf, getElem?_gnodesOf, hi, hj]
  refine ⟨_, _, rfl, rfl, ?_, ?_, ?_⟩
  · dsimp only
    intro he
    have := mkId_inj he
    exact hij (by omega)
  · dsimp only
    rw [labelOf_fdshape _ _ hfi, labelOf_fdshape _ _ hfj]
  · dsimp only
    rw [labelOf_fdshape _ _ hfi]
    refine ⟨"FunctionDef: name=", ", args=" ++ Nat.repr k, ?_⟩
    rw [strAppend_assoc, strAppend_assoc]

theorem tW9_distinct : distinctOids tW9 := by
  simp [distinctOids, tW9, fdW9]

/-- Witness for C9: the two identical `def f(x)` nodes of `tW9` sit at
discovery positions 1 and 5 and get the distinct graph ids `node1` and
`node5` with the same label. -/
theorem claim_C9_witness :
    distinctOids tW9 ∧ (preorder tW9)[1]? = Option.some (fdW9 1) ∧
      (preorder tW9)[5]? = Option.some (fdW9 5) ∧
      ∃ gi gj : GNode, (runGraph tW9).nodes[1]? = Option.some gi ∧
        (runGraph tW9).nodes[5]? = Option.some gj ∧ gi.id ≠ gj.id ∧
        gi.label = gj.label ∧
        ∃ pre post : String, gi.label = pre ++ ("f" ++ post) := by
  have h1 : (preorder tW9)[1]? = Option.some (fdW9 1) := by
    rw [tW9]
    rw [preorder]
    simp [preorderNL, preorder, preorderNO, fdW9]
  have h5 : (preorder tW9)[5]? = Option.some (fdW9 5) := by
    rw [tW9]
    rw [preorder]
    simp [preorderNL, preorder, preorderNO, fdW9]
  exact ⟨tW9_distinct, h1, h5,
    claim_C9 tW9 tW9_distinct "f" 1 1 5 (fdW9 1) (fdW9 5) h1 h5 (by omega)
      ⟨1, _, _, _, _, rfl, rfl⟩ ⟨5, _, _, _, _, rfl, rfl⟩⟩

/-- A call whose callee does not match the `yaml.load` pattern is never
classified: its object id lands in neither the external nor the internal
set. -/
theorem nonYamlCall_unclassified (t : Node) (h : distinctOids t) (c : Node)
    (hny : isNonYamlCall c = true) (hcp : c ∈ preorder t) :
    oidOf c ∉ extOf t ∧ oidOf c ∉ intOf t := by
  have hshape : ∀ p, p ∈ findYaml t Option.none → oidOf p.1 = oidOf c → False := by
    intro p hp ho
    obtain ⟨hmem, oo, f, args, kws, hpc, hyf⟩ := findYaml_mem_shape t Option.none p hp
    have : p.1 = c := oid_inj_in_preorder t h hmem hcp ho
    rw [this] at hpc
    rw [hpc] at hny
    rw [isNonYamlCall, hyf] at hny
    simp at hny
  constructor
  · rw [extOf, mem_external_calls]
    rintro ⟨p, hp, _, hpo⟩
    exact hshape p hp hpo
  · rw [intOf, mem_internal_calls]
    rintro ⟨p, hp, _, hpo⟩
    exact hshape p hp hpo

theorem tW6_distinct : distinctOids tW6 := by
  simp [distinctOids, tW6, funcW6]

/-- Counterexample to claim C6: for the call `a.b.c.d()` the callee shape
is not recognized by the bounded 3-link walk, yet the label does NOT fall
back to the node's kind name: it is `"Call: d (args=0)"` (the outer
attribute name alone), not `"Call: Call (args=0)"`. -/
theorem claim_C6_counterexample :
    ∃ gn : GNode, (runGraph tW6).nodes[2]? = Option.some gn ∧
      gn.label = "Call: d (args=0)" ∧ gn.label ≠ "Call: Call (args=0)" := by
  rw [runGraph_spec tW6 tW6_distinct]
  dsimp only
  rw [getElem?_gnodesOf]
  have h2 : (preorder tW6)[2]? = Option.some (Node.callNode 2 funcW6 NodeList.nil NodeList.nil) := by
    rw [tW6, preorder]
    simp [preorderNL, preorder, preorderNO, funcW6]
  rw [h2]
  have hext : extOf tW6 = [] := by
    rw [extOf, tW6]
    simp [findYaml, findYamlNL, findYamlNO, isYamlLoadFunc, funcW6, external_calls]
  have hint : intOf tW6 = [] := by
    rw [intOf, tW6]
    simp [findYaml, findYamlNL, findYamlNO, isYamlLoadFunc, funcW6, internal_calls]
  refine ⟨_, rfl, ?_, ?_⟩
  · dsimp only
    rw [hext, hint]
    simp only [labelOf, calleeName, funcW6, lenNL]
    rw [if_neg (by simp), if_neg (by simp)]
    decide
  · dsimp only
    rw [hext, hint]
    simp only [labelOf, calleeName, funcW6, lenNL]
    rw [if_neg (by simp), if_neg (by simp)]
    decide

/-- Claim C6 as amended: callee resolution walks attribute chains up to 3
links (`f`, `a.b`, `a.b.c`).  An `Attribute` callee of any other shape
falls back to the outer attribute name alone — NOT to the node's kind
name; only a callee that is neither a `Name` nor an `Attribute` falls back
to the call node's own kind name `"Call"`.  The sensitive `yaml.load`
pattern is always a recognized 2-link shape, so a call with an
unrecognized callee is never classified (Unclassified). -/
theorem claim_C6_amended :
    (∀ (o : Nat) (i : String) (ctx : Node), calleeName (Node.nameNode o i ctx) = i) ∧
    (∀ (o o2 : Nat) (a i : String) (c c2 : Node),
      calleeName (Node.attributeNode o (Node.nameNode o2 i c2) a c) = i ++ "." ++ a) ∧
    (∀ (o o2 o3 : Nat) (a b i : String) (c c2 c3 : Node),
      calleeName (Node.attributeNode o
        (Node.attributeNode o2 (Node.nameNode o3 i c3) b c2) a c) =
        i ++ "." ++ b ++ "." ++ a) ∧
    (∀ (o : Nat) (v : Node) (a : String) (c : Node), attrValueUnrecognized v = true →
      calleeName (Node.attributeNode o v a c) = a) ∧
    (∀ f : Node, notNameOrAttribute f = true → calleeName f = "Call") ∧
    (∀ f : Node, isYamlLoadFunc f = true →
      ∃ o o2 c c2, f = Node.attributeNode o (Node.nameNode o2 "yaml" c2) "load" c) ∧
    (∀ (t : Node), distinctOids t → ∀ (c : Node), c ∈ preorder t →
      isNonYamlCall c = true → oidOf c ∉ extOf t ∧ oidOf c ∉ intOf t) := by
  refine ⟨fun o i ctx => rfl, fun o o2 a i c c2 => rfl, fun o o2 o3 a b i c c2 c3 => rfl,
    ?_, ?_, ?_, ?_⟩
  · intro o v a c hv
    cases v with
    | nameNode o2 i c2 => simp [attrValueUnrecognized] at hv
    | attributeNode o2 vv a2 c2 =>
        cases vv with
        | nameNode o3 i c3 => simp [attrValueUnrecognized] at hv
        | module oo body => rfl
        | functionDef oo nm args body dec rets => rfl
        | argumentsNode oo args => rfl
        | argNode oo aa ann => rfl
        | returnStmt oo vv2 => rfl
        | exprStmt oo vv2 => rfl
        | callNode oo f args kws => rfl
        | attributeNode oo vv2 aa cc => rfl
        | constantNode oo vv2 => rfl
        | loadCtx oo => rfl
        | storeCtx oo => rfl
    | module oo body => rfl
    | functionDef oo nm args body dec rets => rfl
    | argumentsNode oo args => rfl
    | argNode oo aa ann => rfl
    | returnStmt oo vv => rfl
    | exprStmt oo vv => rfl
    | callNode oo f args kws => rfl
    | constantNode oo vv => rfl
    | loadCtx oo => rfl
    | storeCtx oo => rfl
  · intro f hf
    cases f <;> first
      | rfl
      | simp [notNameOrAttribute] at hf
  · intro f hf
    cases f with
    | attributeNode o v a c =>
        cases v with
        | nameNode o2 i c2 =>
            rw [isYamlLoadFunc.eq_def] at hf
            by_cases hy : i = "yaml"
            · by_cases hl : a = "load"
              · subst hy
                subst hl
                exact ⟨o, o2, c, c2, rfl⟩
              · simp [hy, hl] at hf
            · simp [hy] at hf
        | module oo body => simp [isYamlLoadFunc] at hf
        | functionDef oo nm args body dec rets => simp [isYamlLoadFunc] at hf
        | argumentsNode oo args => simp [isYamlLoadFunc] at hf
        | argNode oo aa ann => simp [isYamlLoadFunc] at hf
        | returnStmt oo vv => simp [isYamlLoadFunc] at hf
        | exprStmt oo vv => simp [isYamlLoadFunc] at hf
        | callNode oo f2 args kws => simp [isYamlLoadFunc] at hf
        | attributeNode oo vv aa cc => simp [isYamlLoadFunc] at hf
        | constantNode oo vv => simp [isYamlLoadFunc] at hf
        | loadCtx oo => simp [isYamlLoadFunc] at hf
        | storeCtx oo => simp [isYamlLoadFunc] at hf
    | module oo body => simp [isYamlLoadFunc] at hf
    | functionDef oo nm args body dec rets => simp [isYamlLoadFunc] at hf
    | argumentsNode oo args => simp [isYamlLoadFunc] at hf
    | argNode oo aa ann => simp [isYamlLoadFunc] at hf
    | returnStmt oo vv => simp [isYamlLoadFunc] at hf
    | exprStmt oo vv => simp [isYamlLoadFunc] at hf
    | callNode oo f2 args kws => simp [isYamlLoadFunc] at hf
    | nameNode oo i cc => simp [isYamlLoadFunc] at hf
    | constantNode oo vv => simp [isYamlLoadFunc] at hf
    | loadCtx oo => simp [isYamlLoadFunc] at hf
    | storeCtx oo => simp [isYamlLoadFunc] at hf
  · intro t ht c hcp hny
    exact nonYamlCall_unclassified t ht c hny hcp

/-- Witness for the amended C6 at concrete callee shapes: a 4-link chain
resolves to the outer attribute name, a subscript-like unusual callee (here
a call-of-call) resolves to `"Call"`, and the unclassified conclusion holds
on the concrete tree `tW6`. -/
theorem claim_C6_amended_witness :
    attrValueUnrecognized (Node.attributeNode 5 (Node.nameNode 6 "a" (Node.loadCtx 7))
        "b" (Node.loadCtx 8)) = false ∧
    attrValueUnrecognized (Node.attributeNode 4
        (Node.attributeNode 5 (Node.nameNode 6 "a" (Node.loadCtx 7)) "b" (Node.loadCtx 8))
        "c" (Node.loadCtx 9)) = true ∧
    calleeName funcW6 = "d" ∧
    notNameOrAttribute (Node.callNode 11 (Node.nameNode 12 "g" (Node.loadCtx 13))
        NodeList.nil NodeList.nil) = true ∧
    calleeName (Node.callNode 11 (Node.nameNode 12 "g" (Node.loadCtx 13))
        NodeList.nil NodeList.nil) = "Call" ∧
    distinctOids tW6 ∧
    (Node.callNode 2 funcW6 NodeList.nil NodeList.nil) ∈ preorder tW6 ∧
    isNonYamlCall (Node.callNode 2 funcW6 NodeList.nil NodeList.nil) = true ∧
    oidOf (Node.callNode 2 funcW6 NodeList.nil NodeList.nil) ∉ extOf tW6 ∧
    oidOf (Node.callNode 2 funcW6 NodeList.nil NodeList.nil) ∉ intOf tW6 := by
  have hmem : (Node.callNode 2 funcW6 NodeList.nil NodeList.nil) ∈ preorder tW6 := by
    rw [tW6, preorder]
    simp [preorderNL, preorder, preorderNO, funcW6]
  have hny : isNonYamlCall (Node.callNode 2 funcW6 NodeList.nil NodeList.nil) = true := by
    rw [isNonYamlCall]
    rw [funcW6]
    rfl
  have h4 := claim_C6_amended.2.2.2.1 3
    (Node.attributeNode 4
      (Node.attributeNode 5 (Node.nameNode 6 "a" (Node.loadCtx 7)) "b" (Node.loadCtx 8))
      "c" (Node.loadCtx 9)) "d" (Node.loadCtx 10) (by rfl)
  have h5 := claim_C6_amended.2.2.2.2.1
    (Node.callNode 11 (Node.nameNode 12 "g" (Node.loadCtx 13)) NodeList.nil NodeList.nil)
    (by rfl)
  have h7 := claim_C6_amended.2.2.2.2.2.2 tW6 tW6_distinct
    (Node.callNode 2 funcW6 NodeList.nil NodeList.nil) hmem hny
  exact ⟨rfl, rfl, by rw [funcW6]; exact h4, rfl, h5, tW6_distinct, hmem, hny, h7.1, h7.2⟩

theorem deepTree_oids_lt (n : Nat) : ∀ x ∈ oids (deepTree n), x < 2 * n + 2 := by
  induction n with
  | zero =>
      intro x hx
      rw [deepTree] at hx
      simp at hx
      omega
  | succ k ih =>
      intro x hx
      rw [deepTree] at hx
      rw [oids_attributeNode] at hx
      simp only [List.mem_cons, List.mem_append, oids_loadCtx, List.mem_singleton,
        List.not_mem_nil, or_false] at hx
      rcases hx with h | h | h
      · omega
      · have := ih x h
        omega
      · omega

theorem deepTree_distinct (n : Nat) : distinctOids (deepTree n) := by
  induction n with
  | zero =>
      rw [distinctOids, deepTree]
      simp
  | succ k ih =>
      rw [distinctOids, deepTree, oids_attributeNode]
      rw [List.nodup_cons, List.nodup_append]
      refine ⟨?_, ih, by simp, ?_⟩
      · simp only [List.mem_append, oids_loadCtx, List.mem_cons, List.not_mem_nil,
          or_false]
        rintro (h | h)
        · have := deepTree_oids_lt k _ h
          omega
        · omega
      · intro x hx
        have := deepTree_oids_lt k x hx
        simp only [oids_loadCtx, List.mem_cons, List.not_mem_nil, or_false]
        omega

theorem plen_deepTree (n : Nat) : plen (deepTree n) = 2 * n + 2 := by
  induction n with
  | zero =>
      rw [deepTree]
      simp [preorder]
  | succ k ih =>
      rw [deepTree]
      simp only [plen_eq, preorder, List.length_cons, List.length_append,
        List.length_nil] at ih ⊢
      omega

/-- On a walk of the depth-`n` chain, the graph contains all `2n + 2`
nodes: the traversal runs to completion at every depth. -/
theorem runGraph_deepTree_nodes (n : Nat) :
    (runGraph (deepTree n)).nodes.length = 2 * n + 2 := by
  rw [runGraph_spec (deepTree n) (deepTree_distinct n)]
  dsimp only
  rw [length_gnodesOf]
  rw [show (preorder (deepTree n)).length = plen (deepTree n) from rfl, plen_deepTree]

/-- Counterexample to claim C3: the walk of a tree of nesting depth 41
does not fail — it completes normally, producing all 82 graph nodes.  The
code defines no maximum traversal depth and has no "tree too deep" (or
any other) error path: `add_node` recurses unconditionally, so a deep
input can only hit the host interpreter's recursion limit, which is
exactly the unguarded resource failure the claim excludes. -/
theorem claim_C3_counterexample : (runGraph (deepTree 40)).nodes.length = 82 :=
  runGraph_deepTree_nodes 40

/-- Claim C3 as amended: the code has no configured maximum depth and no
distinct "tree too deep" error; the walk simply recurses to arbitrary
depth and completes, emitting the full graph, on trees of every nesting
depth. -/
theorem claim_C3_amended (n : Nat) :
    (runGraph (deepTree n)).nodes.length = 2 * n + 2 :=
  runGraph_deepTree_nodes n

theorem tW7_distinct : distinctOids tW7 := by
  simp [distinctOids, tW7]

/-- The edges of the `tW7` walk, explicitly. -/
theorem runGraph_tW7_edges :
    (runGraph tW7).edges =
      [GEdge.mk "node0" "node1" "body[0]",
       GEdge.mk "node1" "node2" "args",
       GEdge.mk "node1" "node3" "body[0]",
       GEdge.mk "node1" "node4" "returns",
       GEdge.mk "node4" "node5" "ctx"] := by
  rw [runGraph_spec tW7 tW7_distinct]
  dsimp only
  rw [tW7]
  simp only [specEdges, specEdgesNL, specEdgesNO, edgesFor, plen_eq, plenNL_eq,
    plenNO_eq, preorder, preorderNL, preorderNO, List.length_cons, List.length_append,
    List.length_nil, List.append_assoc, List.cons_append, List.nil_append]
  decide

/-- Counterexample to claim C7: in the walk of `def f() -> int: return`,
the edges out of the `FunctionDef` node appear in field-declaration order
`args, body[0], returns` — the scalar sub-node field `returns` is visited
AFTER the list field `body`, contradicting the claimed
scalars-before-lists order. -/
theorem claim_C7_counterexample :
    (((runGraph tW7).edges.filter (fun e => e.src == "node1")).map (fun e => e.lab) =
      ["args", "body[0]", "returns"]) ∧
    (((runGraph tW7).edges.filter (fun e => e.src == "node1")).map (fun e => e.lab) ≠
      ["args", "returns", "body[0]"]) := by
  rw [runGraph_tW7_edges]
  constructor
  · decide
  · decide

/-- Claim C7 as amended: the walk recurses into the structural fields in
the node's `_fields` declaration order (for a `FunctionDef`: `args`,
`body`, `decorator_list`, `returns`), not scalars-first; an AST-valued
field contributes one edge labelled with the field name, and each list
field is traversed in index order with `field[index]` labels — exactly the
edge sequence described by `specEdges`. -/
theorem claim_C7_amended (t : Node) (h : distinctOids t) :
    (runGraph t).edges = specEdges t Option.none "" 0 := by
  rw [runGraph_spec t h]

/-- Witness for the amended C7 at the concrete tree `tW7`. -/
theorem claim_C7_amended_witness :
    distinctOids tW7 ∧ (runGraph tW7).edges = specEdges tW7 Option.none "" 0 :=
  ⟨tW7_distinct, claim_C7_amended tW7 tW7_distinct⟩

theorem extOf_tW1 : extOf tW1 = [] := by
  rw [extOf, tW1, XW1]
  simp [findYaml, findYamlNL, findYamlNO, isYamlLoadFunc, external_calls]

theorem intOf_tW1 : intOf tW1 = [] := by
  rw [intOf, tW1, XW1]
  simp [findYaml, findYamlNL, findYamlNO, isYamlLoadFunc, internal_calls]

/-- The complete walk of the DAG input `tW1`: seven graph nodes (the
shared subtree registered once) but the three edges inside the shared
subtree emitted twice, once per traversal. -/
theorem runGraph_tW1 :
    runGraph tW1 = St.mk 7
      [(0, "node0"), (1, "node1"), (2, "node2"), (3, "node3"), (4, "node4"),
        (5, "node5"), (6, "node6")]
      [GNode.mk "node0" "Module" Option.none,
       GNode.mk "node1" "Expr" Option.none,
       GNode.mk "node2" "Call: f (args=1)" Option.none,
       GNode.mk "node3" "Name: f (Load)" Option.none,
       GNode.mk "node4" "Load" Option.none,
       GNode.mk "node5" "Constant: \"a\"" Option.none,
       GNode.mk "node6" "Expr" Option.none]
      [GEdge.mk "node0" "node1" "body[0]",
       GEdge.mk "node1" "node2" "value",
       GEdge.mk "node2" "node3" "func",
       GEdge.mk "node3" "node4" "ctx",
       GEdge.mk "node2" "node5" "args[0]",
       GEdge.mk "node0" "node6" "body[1]",
       GEdge.mk "node6" "node2" "value",
       GEdge.mk "node2" "node3" "func",
       GEdge.mk "node3" "node4" "ctx",
       GEdge.mk "node2" "node5" "args[0]"] := by
  rw [runGraph, extOf_tW1, intOf_tW1]
  rw [tW1]
  rw [add_node]
  simp only [oidOf, lookupId]
  rw [add_list]
  rw [add_node_spec [] [] (Node.exprStmt 1 XW1) _ _ _
    (by rw [XW1]; simp)
    (by
      intro x hx
      rw [XW1] at hx
      simp at hx
      rcases hx with rfl | rfl | rfl | rfl | rfl <;> rfl)]
  rw [add_list]
  rw [add_node]
  simp [XW1, oidOf, preorder, preorderNL, preorderNO, idsOf, gnodesOf, specEdges,
    specEdgesNL, specEdgesNO, edgesFor, labelOf, fillOf, calleeName, kindName, lenNL,
    lookupId, flabStr]
  rw [add_node_revisit [] []
    (Node.callNode 2 (Node.nameNode 3 "f" (Node.loadCtx 4))
      (NodeList.cons (Node.constantNode 5 (ConstVal.str "a")) NodeList.nil) NodeList.nil)
    _ _ _
    (by intro x hx; simp at hx; rcases hx with rfl | rfl | rfl | rfl <;> rfl)]
  rw [add_list]
  simp [specRevisit, specRevisitNL, specRevisitNO, lookD, lookupId, edgesFor, oidOf]
  decide

/-- Counterexample to claim C1: in the walk of the DAG `tW1`, where the
call object `XW1` is reachable through two structural references, the
child edge `node2 → node3` labelled `func` inside the shared subtree is
emitted twice — once per traversal — not exactly once overall. -/
theorem claim_C1_counterexample :
    ((runGraph tW1).edges.filter
      (fun e => e == GEdge.mk "node2" "node3" "func")).length = 2 := by
  rw [runGraph_tW1]
  decide

/-- Claim C1 as amended: a revisit of an already-seen subtree reuses the
existing graph ids and registers no new graph node, and it does add the
new incoming edge — but `add_node` recurses into the children again
unconditionally, re-emitting every edge of the subtree (described by
`specRevisit`) once per additional incoming reference.  Concretely, on
`tW1` the shared subtree yields a single set of 7 graph nodes, one new
incoming edge `node6 → node2`, and a second copy of each of its child
edges (e.g. the `func` edge appears twice). -/
theorem claim_C1_amended :
    (∀ (ext int : List Nat) (n : Node) (pid : Option String) (flab : Option String)
      (st : St), (∀ x ∈ oids n, (lookupId st.node_ids x).isSome) →
      add_node ext int n pid flab st = St.mk st.node_counter st.node_ids st.nodes
        (st.edges ++ specRevisit st.node_ids n pid (flabStr flab))) ∧
    (runGraph tW1).nodes.length = 7 ∧
    ((runGraph tW1).edges.filter
      (fun e => e == GEdge.mk "node6" "node2" "value")).length = 1 ∧
    ((runGraph tW1).edges.filter
      (fun e => e == GEdge.mk "node2" "node3" "func")).length = 2 := by
  refine ⟨fun ext int n pid flab st h => add_node_revisit ext int n pid flab st h,
    ?_, ?_, ?_⟩
  · rw [runGraph_tW1]
    decide
  · rw [runGraph_tW1]
    decide
  · rw [runGraph_tW1]
    decide

/-- Witness for the amended C1: revisiting the fully-registered subtree
`XW1` from a new parent appends exactly the `specRevisit` edges and
changes nothing else. -/
theorem claim_C1_amended_witness :
    (∀ x ∈ oids XW1,
      (lookupId [(2, "node2"), (3, "node3"), (4, "node4"), (5, "node5")] x).isSome) ∧
    add_node [] [] XW1 (Option.some "node9") (Option.some "value")
        (St.mk 7 [(2, "node2"), (3, "node3"), (4, "node4"), (5, "node5")] [] []) =
      St.mk 7 [(2, "node2"), (3, "node3"), (4, "node4"), (5, "node5")] []
        ([] ++ specRevisit [(2, "node2"), (3, "node3"), (4, "node4"), (5, "node5")]
          XW1 (Option.some "node9") (flabStr (Option.some "value"))) := by
  have hhyp : ∀ x ∈ oids XW1,
      (lookupId [(2, "node2"), (3, "node3"), (4, "node4"), (5, "node5")] x).isSome := by
    intro x hx
    simp [XW1] at hx
    rcases hx with rfl | rfl | rfl | rfl <;> rfl
  exact ⟨hhyp, claim_C1_amended.1 [] [] XW1 _ _ _ hhyp⟩
